import Mathlib

/-! Shallow embedding of the godot-toml source (src/godot_toml.rs): a TOML
document walker that builds a Godot dictionary, with an embedded-type
decoder that recognizes textual Godot value literals inside string leaves.

Modelling conventions:
* Rust panics (`expect`, `unwrap`, slice/index out of bounds) abort the whole
  operation; they are modelled as `Except.error` with a `DErr` tag.
* `f32` values are kept as exact rationals tagged by `F32`; rounding of a
  decimal literal to binary `f32` is not modelled (no verified property
  depends on the rounded value), while the `inf`/`nan` forms accepted by
  Rust's float grammar are represented by dedicated constructors.
* The regex token scan of `encode_godot_types` is modelled by `tokenize`,
  a direct left-to-right implementation of the pattern
  `((?:\/)?([a-zA-Z0-9\.]+))` applied repeatedly from the end of the
  previous match: a maximal run of letters, digits and dots, together with
  an immediately preceding slash when present.
* The index-based loop of `set_godot_type_to_dictionary` is modelled by
  `setGo all key u2 u3 suffix d p2 p3` where `suffix` is the sub-list of
  `all` from the loop index `i` on; `regex_results[i+k]` is `suffix.get? k`,
  the slice `regex_results[i+1..]` is `suffix.tail`, and
  `regex_results[regex_results.len()-1]` indexes `all`.  The two `Option`
  pool out-parameters are modelled by the flags `u2`/`u3` (whether a pool
  was supplied) plus the threaded pool contents `p2`/`p3`.
-/

namespace GodotToml

/-- Panic/abort conditions of the source, by panic site kind:
`malformedLiteral` for a failed `str::parse::<f32>().expect`,
`indexError` for an out-of-bounds slice/`Vec` index,
`tomlError` for `toml::from_str(..).expect`,
`castError` for a failed `as_table`/`unwrap` cast. -/
inductive DErr where
  | malformedLiteral
  | indexError
  | tomlError
  | castError
deriving DecidableEq, Repr

/-- Result of opening the file through the host `File` facility. -/
inductive IoErr where
  | cannotOpen
deriving DecidableEq, Repr

/-- An `f32` value: finite values are kept as exact rationals (binary
rounding is not modelled), with the special `inf`/`nan` parse results as
dedicated constructors. -/
inductive F32 where
  | finite (val : ℚ)
  | posInf
  | negInf
  | nan
deriving DecidableEq, Repr

/-- Decidable equality of `Except` results, for evaluating the model on
concrete inputs. -/
instance {ε α : Type} [DecidableEq ε] [DecidableEq α] : DecidableEq (Except ε α) :=
  fun a b =>
    match a, b with
    | .error e, .error e2 =>
      if h : e = e2 then .isTrue (by rw [h])
      else .isFalse (by intro hh; injection hh; contradiction)
    | .error _, .ok _ => .isFalse (by intro hh; injection hh)
    | .ok _, .error _ => .isFalse (by intro hh; injection hh)
    | .ok v, .ok v2 =>
      if h : v = v2 then .isTrue (by rw [h])
      else .isFalse (by intro hh; injection hh; contradiction)

/-- Value of a digit run, most significant first (`'0'` has code 48). -/
def digitsVal (cs : List Char) : ℕ :=
  cs.foldl (fun a c => 10 * a + (c.toNat - 48)) 0

/-- Value of a fractional digit run placed after the decimal point. -/
def fracVal (cs : List Char) : ℚ :=
  (digitsVal cs : ℚ) / (10 : ℚ) ^ cs.length

/-- Whether every character is an ASCII digit. -/
def allDigits (cs : List Char) : Bool :=
  cs.all Char.isDigit

/-- The part of a float mantissa after the integral digits: empty, or a dot
followed by fractional digits.  `ip` is the integral digit run. -/
def mantissaTail (ip : List Char) : List Char → Option ℚ
  | [] => if ip.isEmpty then none else some (digitsVal ip)
  | c :: fp =>
    if c = '.' then
      if allDigits fp && !(ip.isEmpty && fp.isEmpty) then
        some ((digitsVal ip : ℚ) + fracVal fp)
      else none
    else none

/-- The mantissa part of Rust's float grammar: `digits`, `digits . digits?`
or `. digits` (at least one digit overall). -/
def parseMantissa (cs : List Char) : Option ℚ :=
  mantissaTail (cs.takeWhile Char.isDigit) (cs.dropWhile Char.isDigit)

/-- Split a character list at the first `e`/`E`, returning the part before
it and, when found, the part after it. -/
def splitExp : List Char → List Char × Option (List Char)
  | [] => ([], none)
  | c :: rest =>
    if c = 'e' || c = 'E' then ([], some rest)
    else
      let (m, e) := splitExp rest
      (c :: m, e)

/-- The exponent part of Rust's float grammar: an optional sign then a
nonempty digit run. -/
def parseExp (cs : List Char) : Option ℤ :=
  match cs with
  | [] => none
  | c :: ds =>
    if c = '+' then
      if ds.isEmpty || !allDigits ds then none else some (digitsVal ds : ℤ)
    else if c = '-' then
      if ds.isEmpty || !allDigits ds then none else some (-(digitsVal ds : ℤ))
    else if allDigits (c :: ds) then some (digitsVal (c :: ds) : ℤ)
    else none

/-- Strip leading and trailing whitespace, the effect of `str::trim`. -/
def trimChars (cs : List Char) : List Char :=
  ((cs.dropWhile Char.isWhitespace).reverse.dropWhile Char.isWhitespace).reverse

/-- Split an optional leading sign off a float literal: the negativity flag
and the remaining body. -/
def signSplit (cs : List Char) : Bool × List Char :=
  match cs with
  | [] => (false, [])
  | c :: r =>
    if c = '+' then (false, r)
    else if c = '-' then (true, r)
    else (false, c :: r)

/-- Model of `str::parse::<f32>` on a character list: optional sign, then
`inf`/`infinity`/`nan` (ASCII case-insensitive) or a decimal mantissa with
optional exponent. -/
def rustParseF32 (cs : List Char) : Option F32 :=
  let neg := (signSplit cs).1
  let body := (signSplit cs).2
  let lower := body.map Char.toLower
  if lower = ['i', 'n', 'f'] || lower = ['i', 'n', 'f', 'i', 'n', 'i', 't', 'y'] then
    some (if neg then .negInf else .posInf)
  else if lower = ['n', 'a', 'n'] then some .nan
  else
    match splitExp body with
    | (m, none) => (parseMantissa m).map (fun q => .finite (if neg then -q else q))
    | (m, some ecs) =>
      match parseMantissa m, parseExp ecs with
      | some q, some ev => some (.finite ((if neg then -q else q) * (10 : ℚ) ^ ev))
      | _, _ => none

/-- `token.trim().parse::<f32>().expect("Unable to cast to f32")`:
a failed parse is the `MalformedLiteralError` panic. -/
def parseTok (s : String) : Except DErr F32 :=
  match rustParseF32 (trimChars s.data) with
  | some v => .ok v
  | none => .error .malformedLiteral

/-- A character matched by the regex character class `[a-zA-Z0-9\.]`. -/
def tokChar (c : Char) : Bool :=
  c.isAlpha || c.isDigit || c = '.'

/-- Emit the pending token accumulator (kept reversed) if nonempty. -/
def closeTok (acc : List Char) : List String :=
  if acc.isEmpty then [] else [String.mk acc.reverse]

/-- Left-to-right scan implementing the repeated regex match of
`encode_godot_types`: a maximal `tokChar` run forms a token, prefixed by an
immediately preceding `/` when one is present; everything else is skipped.
`pending` records that the previous character was a `/` able to start a
match, and `acc` is the current run, reversed. -/
def tokenizeGo (pending : Bool) (acc : List Char) : List Char → List String
  | [] => closeTok acc
  | c :: rest =>
    if tokChar c then
      if pending then tokenizeGo false (c :: '/' :: acc) rest
      else tokenizeGo false (c :: acc) rest
    else if c = '/' then closeTok acc ++ tokenizeGo true [] rest
    else closeTok acc ++ tokenizeGo false [] rest

/-- The full token list `type_results` produced from a string value. -/
def tokenize (s : String) : List String :=
  tokenizeGo false [] s.data

/-- The fixed tag set checked by `encode_godot_types`. -/
def godot_types : List String :=
  ["Vector2", "Vector3", "Color", "Rect2", "Plane", "Transform2D", "Basis", "Transform"]

/-- `Vector2` value. -/
structure Vector2 where
  x : F32
  y : F32
deriving DecidableEq, Repr

/-- `Vector3` value. -/
structure Vector3 where
  x : F32
  y : F32
  z : F32
deriving DecidableEq, Repr

/-- `Color` value (`rgb` sets the alpha channel to exactly 1.0). -/
structure Color where
  r : F32
  g : F32
  b : F32
  a : F32
deriving DecidableEq, Repr

/-- `Rect2` value, built from a position point and a size. -/
structure Rect2 where
  position : Vector2
  size : Vector2
deriving DecidableEq, Repr

/-- `Plane` value: a normal vector and the `d` scalar. -/
structure Plane where
  normal : Vector3
  d : F32
deriving DecidableEq, Repr

/-- `Transform2D` value, the six entries passed to `row_major` in order. -/
structure Transform2D where
  xx : F32
  xy : F32
  yx : F32
  yy : F32
  ox : F32
  oy : F32
deriving DecidableEq, Repr

/-- `Basis` value: the three element vectors. -/
structure Basis where
  elements : Vector3 × Vector3 × Vector3
deriving DecidableEq, Repr

/-- `Transform` value: a basis plus an origin. -/
structure Transform where
  basis : Basis
  origin : Vector3
deriving DecidableEq, Repr

/-- Godot `Variant` values the source stores into dictionaries, including
nested dictionaries and arrays. -/
inductive GVariant where
  | str (s : String)
  | int (n : ℤ)
  | float (q : ℚ)
  | bool (b : Bool)
  | vector2 (v : Vector2)
  | vector3 (v : Vector3)
  | color (c : Color)
  | rect2 (r : Rect2)
  | plane (p : Plane)
  | transform2d (t : Transform2D)
  | basis (b : Basis)
  | transform (t : Transform)
  | dict (d : List (String × GVariant))
  | arr (a : List GVariant)

/-- A Godot `Dictionary`: key/value pairs in insertion order. -/
abbrev Dictionary := List (String × GVariant)

/-- `Dictionary::set`: replace in place when the key exists, else append. -/
def dictSet (d : Dictionary) (key : String) (v : GVariant) : Dictionary :=
  if d.any (fun p => p.1 = key) then
    d.map (fun p => if p.1 = key then (key, v) else p)
  else d ++ [(key, v)]

/-- `regex_results[n]`: list indexing whose out-of-bounds case is the Rust
index panic. -/
def readTok (l : List String) (n : ℕ) : Except DErr String :=
  match l.get? n with
  | some s => .ok s
  | none => .error .indexError

/-- `vec[n]` on a `Vec<Vector2>`/`Vec<Vector3>` pool. -/
def readPool {α : Type} (l : List α) (n : ℕ) : Except DErr α :=
  match l.get? n with
  | some v => .ok v
  | none => .error .indexError

/-- `encode_vector2`: parse the two coordinate tokens. -/
def encode_vector2 (x y : String) : Except DErr Vector2 := do
  let vx ← parseTok x
  let vy ← parseTok y
  return ⟨vx, vy⟩

/-- `encode_vector3`: parse the three coordinate tokens. -/
def encode_vector3 (x y z : String) : Except DErr Vector3 := do
  let vx ← parseTok x
  let vy ← parseTok y
  let vz ← parseTok z
  return ⟨vx, vy, vz⟩

/-- `encode_rect2`: position point and size from the two vectors. -/
def encode_rect2 (posVec sizeVec : Vector2) : Rect2 :=
  ⟨⟨posVec.x, posVec.y⟩, ⟨sizeVec.x, sizeVec.y⟩⟩

/-- `encode_transform2d`: `row_major` of the axis/origin components. -/
def encode_transform2d (xAxis yAxis origin : Vector2) : Transform2D :=
  ⟨xAxis.x, xAxis.y, yAxis.x, yAxis.y, origin.x, origin.y⟩

/-- `encode_basis`: the three element vectors. -/
def encode_basis (x y z : Vector3) : Basis :=
  ⟨(x, y, z)⟩

/-- `encode_transform`: basis from the three axis vectors plus origin. -/
def encode_transform (xAxis yAxis zAxis origin : Vector3) : Transform :=
  ⟨encode_basis xAxis yAxis zAxis, origin⟩

/-- `encode_plane`: normal vector plus the parsed `d` token. -/
def encode_plane (normalVec : Vector3) (dTok : String) : Except DErr Plane := do
  let dv ← parseTok dTok
  return ⟨normalVec, dv⟩

/-- `encode_color`: parse `r`, `g`, `b` and the optional alpha token;
`Color::rgb` fixes the alpha at exactly 1.0. -/
def encode_color (r g b : String) (a : Option String) : Except DErr Color := do
  let rv ← parseTok r
  let gv ← parseTok g
  let bv ← parseTok b
  match a with
  | some s => do
    let av ← parseTok s
    return ⟨rv, gv, bv, av⟩
  | none => return ⟨rv, gv, bv, .finite 1⟩

/-- The loop body of `set_godot_type_to_dictionary`.  Arguments:
`all` is the frame's full `regex_results` list, `key` the destination key,
`u2`/`u3` whether a `Vector2`/`Vector3` pool was supplied by a recursive
caller, the final list the remaining suffix of `all` from the loop index on,
then the dictionary and the two pool contents.  Returns the updated
dictionary and pools, the `Ok` case covering both a `break` and a completed
loop. -/
def setGo : List String → String → Bool → Bool → List String → Dictionary →
    List Vector2 → List Vector3 → Except DErr (Dictionary × List Vector2 × List Vector3)
  | _, _, _, _, [], d, p2, p3 => .ok (d, p2, p3)
  | all, key, u2, u3, item :: rest, d, p2, p3 =>
    if item = "Vector2" then
      match readTok rest 0 with
      | .error e => .error e
      | .ok x =>
        match readTok rest 1 with
        | .error e => .error e
        | .ok y =>
          match encode_vector2 x y with
          | .error e => .error e
          | .ok v =>
            if u2 then setGo all key u2 u3 rest d (p2 ++ [v]) p3
            else .ok (dictSet d key (.vector2 v), p2, p3)
    else if item = "Vector3" then
      match readTok rest 0 with
      | .error e => .error e
      | .ok x =>
        match readTok rest 1 with
        | .error e => .error e
        | .ok y =>
          match readTok rest 2 with
          | .error e => .error e
          | .ok z =>
            match encode_vector3 x y z with
            | .error e => .error e
            | .ok v =>
              if u3 then setGo all key u2 u3 rest d p2 (p3 ++ [v])
              else .ok (dictSet d key (.vector3 v), p2, p3)
    else if item = "Color" then
      match (if all.length = 5 then
               match readTok rest 3 with
               | .error e => .error e
               | .ok s => .ok (some s)
             else .ok none : Except DErr (Option String)) with
      | .error e => .error e
      | .ok alpha =>
        match readTok rest 0 with
        | .error e => .error e
        | .ok r =>
          match readTok rest 1 with
          | .error e => .error e
          | .ok g =>
            match readTok rest 2 with
            | .error e => .error e
            | .ok b =>
              match encode_color r g b alpha with
              | .error e => .error e
              | .ok c => .ok (dictSet d key (.color c), p2, p3)
    else if item = "Rect2" then
      match setGo rest key true false rest d [] [] with
      | .error e => .error e
      | .ok (d2, pool, _) =>
        match readPool pool 0 with
        | .error e => .error e
        | .ok v0 =>
          match readPool pool 1 with
          | .error e => .error e
          | .ok v1 => .ok (dictSet d2 key (.rect2 (encode_rect2 v0 v1)), p2, p3)
    else if item = "Plane" then
      match setGo rest key false true rest d [] [] with
      | .error e => .error e
      | .ok (d2, _, pool) =>
        match readPool pool 0 with
        | .error e => .error e
        | .ok n =>
          match readTok all (all.length - 1) with
          | .error e => .error e
          | .ok dTok =>
            match encode_plane n dTok with
            | .error e => .error e
            | .ok pl => .ok (dictSet d2 key (.plane pl), p2, p3)
    else if item = "Transform2D" then
      match setGo rest key true false rest d [] [] with
      | .error e => .error e
      | .ok (d2, pool, _) =>
        match readPool pool 0 with
        | .error e => .error e
        | .ok v0 =>
          match readPool pool 1 with
          | .error e => .error e
          | .ok v1 =>
            match readPool pool 2 with
            | .error e => .error e
            | .ok v2 =>
              .ok (dictSet d2 key (.transform2d (encode_transform2d v0 v1 v2)), p2, p3)
    else if item = "Basis" then
      match setGo rest key false true rest d [] [] with
      | .error e => .error e
      | .ok (d2, _, pool) =>
        match readPool pool 0 with
        | .error e => .error e
        | .ok v0 =>
          match readPool pool 1 with
          | .error e => .error e
          | .ok v1 =>
            match readPool pool 2 with
            | .error e => .error e
            | .ok v2 => .ok (dictSet d2 key (.basis (encode_basis v0 v1 v2)), p2, p3)
    else if item = "Transform" then
      match setGo rest key false true rest d [] [] with
      | .error e => .error e
      | .ok (d2, _, pool) =>
        match readPool pool 0 with
        | .error e => .error e
        | .ok v0 =>
          match readPool pool 1 with
          | .error e => .error e
          | .ok v1 =>
            match readPool pool 2 with
            | .error e => .error e
            | .ok v2 =>
              match readPool pool 3 with
              | .error e => .error e
              | .ok v3 =>
                .ok (dictSet d2 key (.transform (encode_transform v0 v1 v2 v3)), p2, p3)
    else setGo all key u2 u3 rest d p2 p3

/-- `set_godot_type_to_dictionary` as called with no pools supplied: the
entry point used by `encode_godot_types`. -/
def set_godot_type_to_dictionary (tokens : List String) (key : String) (d : Dictionary) :
    Except DErr (Dictionary × List Vector2 × List Vector3) :=
  setGo tokens key false false tokens d [] []

/-- `encode_godot_types`: tokenize the string value, index `type_results[0]`
(panicking when the token list is empty), fall back to storing the raw
string when the first token is not a known tag, else run the decoder. -/
def encode_godot_types (d : Dictionary) (key value : String) : Except DErr Dictionary :=
  let type_results := tokenize value
  match type_results.get? 0 with
  | none => .error .indexError
  | some t0 =>
    if godot_types.contains t0 then
      match set_godot_type_to_dictionary type_results key d with
      | .error e => .error e
      | .ok (d2, _, _) => .ok d2
    else .ok (dictSet d key (.str value))

/-- A parsed TOML document value: the leaf kinds dispatched on by
`populate_toml_dictionary` via `type_str`.  A datetime is represented by
its canonical string rendering, the only use the source makes of it. -/
inductive TomlValue where
  | table (es : List (String × TomlValue))
  | arr (xs : List TomlValue)
  | str (s : String)
  | int (n : ℤ)
  | float (q : ℚ)
  | bool (b : Bool)
  | datetime (canonical : String)

mutual

/-- `populate_toml_dictionary`: the loop over the table's entries, each
dispatched by kind through `populateValue`. -/
def populate_toml_dictionary (d : Dictionary) : List (String × TomlValue) → Except DErr Dictionary
  | [] => .ok d
  | (k, v) :: rest =>
    match populateValue d k v with
    | .error e => .error e
    | .ok d2 => populate_toml_dictionary d2 rest

/-- One iteration of the `populate_toml_dictionary` loop: dispatch on the
value's kind. -/
def populateValue (d : Dictionary) (k : String) : TomlValue → Except DErr Dictionary
  | .table es =>
    match populate_toml_dictionary [] es with
    | .error e => .error e
    | .ok sub => .ok (dictSet d k (.dict sub))
  | .arr xs =>
    match populateArray xs with
    | .error e => .error e
    | .ok vs => .ok (dictSet d k (.arr vs))
  | .str s =>
    if s.data.contains '(' then encode_godot_types d k s
    else .ok (dictSet d k (.str s))
  | .int n => .ok (dictSet d k (.int n))
  | .float q => .ok (dictSet d k (.float q))
  | .bool b => .ok (dictSet d k (.bool b))
  | .datetime dt => .ok (dictSet d k (.str dt))

/-- The array branch of `populate_toml_dictionary`: every element is cast to
a table with `unwrap` (panicking otherwise) and built into a sub-dictionary. -/
def populateArray : List TomlValue → Except DErr (List GVariant)
  | [] => .ok []
  | x :: rest =>
    match x with
    | .table es =>
      match populate_toml_dictionary [] es with
      | .error e => .error e
      | .ok sub =>
        match populateArray rest with
        | .error e => .error e
        | .ok vs => .ok (.dict sub :: vs)
    | _ => .error .castError

end

/-- Spec-side: the part of a grammar number after the integral digits. -/
def unsignedTail (ip : List Char) : List Char → Option ℚ
  | [] => if ip.isEmpty then none else some (digitsVal ip)
  | c :: fp =>
    if c = '.' then
      if ip.isEmpty || fp.isEmpty || !allDigits fp then none
      else some ((digitsVal ip : ℚ) + fracVal fp)
    else none

/-- Spec-side: the unsigned part of the spec grammar
`number := ["-"] digits ["." digits]`, returning its exact decimal value. -/
def unsignedNumber? (cs : List Char) : Option ℚ :=
  unsignedTail (cs.takeWhile Char.isDigit) (cs.dropWhile Char.isDigit)

/-- Spec-side: the spec grammar `number := ["-"] digits ["." digits]` with
its exact value. -/
def grammarNumber? (s : String) : Option ℚ :=
  match s.data with
  | [] => none
  | c :: r =>
    if c = '-' then (unsignedNumber? r).map Neg.neg
    else unsignedNumber? (c :: r)

/-- The characters of `s` with an optional leading minus removed: for a
grammar number this is exactly the token the scanner produces from it,
because the regex character class contains no `-`. -/
def gnumCore (s : String) : List Char :=
  match s.data with
  | [] => []
  | c :: r => if c = '-' then r else c :: r

/-- The token a grammar number turns into, and that token's parsed value. -/
def gnumVal? (s : String) : Option ℚ :=
  unsignedNumber? (gnumCore s)

/-- A `Vector2(x, y)` literal fragment at the token level. -/
structure V2Lit where
  x : String
  y : String
deriving DecidableEq, Repr

/-- Token list of a `Vector2` literal fragment. -/
def V2Lit.toks (v : V2Lit) : List String :=
  ["Vector2", v.x, v.y]

/-- A `Vector3(x, y, z)` literal fragment at the token level. -/
structure V3Lit where
  x : String
  y : String
  z : String
deriving DecidableEq, Repr

/-- Token list of a `Vector3` literal fragment. -/
def V3Lit.toks (v : V3Lit) : List String :=
  ["Vector3", v.x, v.y, v.z]

/-- Decode a sequence of `Vector2` literal fragments, stopping at the first
failing one: the values the recursive sub-scan appends to a `Vector2` pool. -/
def decodeV2s : List V2Lit → Except DErr (List Vector2)
  | [] => .ok []
  | v :: rest =>
    match encode_vector2 v.x v.y with
    | .error e => .error e
    | .ok w =>
      match decodeV2s rest with
      | .error e => .error e
      | .ok ws => .ok (w :: ws)

/-- Decode a sequence of `Vector3` literal fragments, stopping at the first
failing one: the values the recursive sub-scan appends to a `Vector3` pool. -/
def decodeV3s : List V3Lit → Except DErr (List Vector3)
  | [] => .ok []
  | v :: rest =>
    match encode_vector3 v.x v.y v.z with
    | .error e => .error e
    | .ok w =>
      match decodeV3s rest with
      | .error e => .error e
      | .ok ws => .ok (w :: ws)

/-- `parse_toml`: the public operation.  The host file facility is
abstracted as `openResult` (the file's text, or an I/O error), the external
TOML parser as `fromStr`.  Mirrors the source faithfully: a failed open is
only logged and execution continues with the empty text that `get_as_text`
returns for an unopened file; the parsed root is cast to a table and walked. -/
def parse_toml (fromStr : String → Except DErr TomlValue)
    (openResult : Except IoErr String) : Except DErr Dictionary :=
  let text := match openResult with
    | .ok t => t
    | .error _ => ""
  match fromStr text with
  | .error e => .error e
  | .ok v =>
    match v with
    | .table entries => populate_toml_dictionary [] entries
    | _ => .error .castError

/-- A piece of a literal template: a separator character, a token run, or a
grammar-number argument (whose optional leading minus is skipped by the
scanner). -/
inductive Seg where
  | sep (c : Char)
  | run (cs : List Char)
  | arg (s : String)

/-- The characters contributed by a template piece list. -/
def segChars : List Seg → List Char
  | [] => []
  | .sep c :: rest => c :: segChars rest
  | .run cs :: rest => cs ++ segChars rest
  | .arg s :: rest => s.data ++ segChars rest

/-- The tokens the scanner extracts from a template piece list. -/
def segToks : List Seg → List String
  | [] => []
  | .sep _ :: rest => segToks rest
  | .run cs :: rest => String.mk cs :: segToks rest
  | .arg s :: rest => String.mk (gnumCore s) :: segToks rest

/-- Well-formedness of one template piece. -/
def segOk : Seg → Prop
  | .sep c => tokChar c = false ∧ c ≠ '/'
  | .run cs => cs ≠ [] ∧ ∀ c ∈ cs, tokChar c = true
  | .arg s => ∃ q, unsignedNumber? (gnumCore s) = some q

/-- No two token-producing pieces are adjacent (runs would merge). -/
def segsWf : List Seg → Prop
  | [] => True
  | .sep _ :: rest => segsWf rest
  | .run _ :: [] => True
  | .run _ :: .sep c :: rest => segsWf (.sep c :: rest)
  | .run _ :: _ => False
  | .arg _ :: [] => True
  | .arg _ :: .sep c :: rest => segsWf (.sep c :: rest)
  | .arg _ :: _ => False

/-! Literal shapes for the malformed-numeric-token claim. -/

/-- A recognized structured-type literal at the token level: the tag and its
argument tokens in the grammar's exact arity (nested vector literals
included), with the argument strings themselves arbitrary. -/
inductive Lit where
  | v2 (a : V2Lit)
  | v3 (a : V3Lit)
  | color3 (r g b : String)
  | color4 (r g b a : String)
  | rect2 (p s : V2Lit)
  | plane (n : V3Lit) (dTok : String)
  | t2d (a b c : V2Lit)
  | basis (a b c : V3Lit)
  | transform (a b c e : V3Lit)

/-- The token list of a literal shape. -/
def Lit.toks : Lit → List String
  | .v2 a => a.toks
  | .v3 a => a.toks
  | .color3 r g b => ["Color", r, g, b]
  | .color4 r g b a => ["Color", r, g, b, a]
  | .rect2 p s => "Rect2" :: (([p, s].map V2Lit.toks).flatten)
  | .plane n dTok => "Plane" :: ((([n] : List V3Lit).map V3Lit.toks).flatten ++ [dTok])
  | .t2d a b c => "Transform2D" :: (([a, b, c].map V2Lit.toks).flatten)
  | .basis a b c => "Basis" :: (([a, b, c].map V3Lit.toks).flatten)
  | .transform a b c e => "Transform" :: (([a, b, c, e].map V3Lit.toks).flatten)

/-- The tokens sitting in numeric-argument positions, in token order. -/
def Lit.numArgs : Lit → List String
  | .v2 a => [a.x, a.y]
  | .v3 a => [a.x, a.y, a.z]
  | .color3 r g b => [r, g, b]
  | .color4 r g b a => [r, g, b, a]
  | .rect2 p s => [p.x, p.y, s.x, s.y]
  | .plane n dTok => [n.x, n.y, n.z, dTok]
  | .t2d a b c => [a.x, a.y, b.x, b.y, c.x, c.y]
  | .basis a b c => [a.x, a.y, a.z, b.x, b.y, b.z, c.x, c.y, c.z]
  | .transform a b c e =>
    [a.x, a.y, a.z, b.x, b.y, b.z, c.x, c.y, c.z, e.x, e.y, e.z]

/-! Documents of nested tables and non-string scalar leaves, and their
spec-side mirror tree. -/

mutual

/-- Whether a document value consists only of tables and non-string scalar
leaves (integer, float, boolean, datetime). -/
def plainDoc : TomlValue → Bool
  | .table es => plainEntries es
  | .int _ => true
  | .float _ => true
  | .bool _ => true
  | .datetime _ => true
  | .str _ => false
  | .arr _ => false

/-- `plainDoc` over a table's entries. -/
def plainEntries : List (String × TomlValue) → Bool
  | [] => true
  | (_, v) :: rest => plainDoc v && plainEntries rest

end

mutual

/-- Spec-side mirror of the claim: the tree with exactly the document's keys
at every level, nested tables as nested mappings, scalar leaves copied, and
a datetime rendered as its canonical string.  (The `str`/`arr` branches are
excluded by `plainDoc` and never reached under the claim's hypothesis.) -/
def mirrorVal : TomlValue → GVariant
  | .table es => .dict (mirrorEntries es)
  | .int n => .int n
  | .float q => .float q
  | .bool b => .bool b
  | .datetime s => .str s
  | .str s => .str s
  | .arr _ => .str ""

/-- `mirrorVal` over a table's entries, keys kept in order. -/
def mirrorEntries : List (String × TomlValue) → Dictionary
  | [] => []
  | (kk, v) :: rest => (kk, mirrorVal v) :: mirrorEntries rest

end

mutual

/-- Every table in the document has pairwise-distinct keys (true of any
table produced by a TOML parser, where duplicate keys are a parse error). -/
def nodupDoc : TomlValue → Prop
  | .table es => (es.map Prod.fst).Nodup ∧ nodupEntries es
  | _ => True

/-- `nodupDoc` over a table's entries. -/
def nodupEntries : List (String × TomlValue) → Prop
  | [] => True
  | (_, v) :: rest => nodupDoc v ∧ nodupEntries rest

end

/-! Basic character and number-grammar facts. -/

theorem char_toNat_lt {c : Char} (h : c.val ≤ 57) : c.toNat < 65 := by
  have h2 : c.val.toNat ≤ (57 : UInt32).toNat := by
    rw [UInt32.le_def] at h
    exact BitVec.le_def.mp h
  simpa [Char.toNat] using Nat.lt_of_le_of_lt h2 (by norm_num)

theorem toLower_eq_self {c : Char} (h : c.toNat < 65) : c.toLower = c :=
  if_neg (by omega)

theorem toLower_digit {c : Char} (h : c.isDigit = true) : c.toLower = c := by
  simp only [Char.isDigit, Bool.and_eq_true, decide_eq_true_eq] at h
  exact toLower_eq_self (char_toNat_lt h.2)

theorem toLower_digitDot {c : Char} (h : c.isDigit = true ∨ c = '.') : c.toLower = c := by
  rcases h with h | h
  · exact toLower_digit h
  · subst h; decide

theorem map_toLower_eq_self {cs : List Char}
    (h : ∀ c ∈ cs, c.isDigit = true ∨ c = '.') : cs.map Char.toLower = cs := by
  induction cs with
  | nil => rfl
  | cons c r ih =>
    simp only [List.map_cons, toLower_digitDot (h c (by simp)),
      ih (fun d hd => h d (by simp [hd]))]

theorem splitExp_no_e {cs : List Char} (h : ∀ c ∈ cs, ¬(c = 'e' ∨ c = 'E')) :
    splitExp cs = (cs, none) := by
  induction cs with
  | nil => rfl
  | cons c r ih =>
    have hc : ¬(c = 'e' ∨ c = 'E') := h c (by simp)
    rw [splitExp, if_neg (by simpa using hc), ih (fun d hd => h d (by simp [hd]))]

theorem dropWhile_eq_self_of {p : Char → Bool} {cs : List Char}
    (h : ∀ c ∈ cs, p c = false) : cs.dropWhile p = cs := by
  cases cs with
  | nil => rfl
  | cons c r => rw [List.dropWhile_cons, if_neg (by simp [h c (by simp)])]

theorem trimChars_eq_self {cs : List Char}
    (h : ∀ c ∈ cs, c.isWhitespace = false) : trimChars cs = cs := by
  rw [trimChars, dropWhile_eq_self_of h,
    dropWhile_eq_self_of (fun c hc => h c (List.mem_reverse.mp hc)), List.reverse_reverse]

theorem digitDot_not_whitespace {c : Char} (h : c.isDigit = true ∨ c = '.') :
    c.isWhitespace = false := by
  rcases h with h | h
  · by_contra hw
    rw [Bool.not_eq_false] at hw
    simp only [Char.isWhitespace, Bool.or_eq_true, decide_eq_true_eq] at hw
    rcases hw with ((h1 | h1) | h1) | h1 <;> (subst h1; simp at h)
  · subst h; decide

theorem unsigned_facts {cs : List Char} {q : ℚ} (h : unsignedNumber? cs = some q) :
    (∀ c ∈ cs, c.isDigit = true ∨ c = '.') ∧ ∃ c r, cs = c :: r ∧ c.isDigit = true := by
  unfold unsignedNumber? at h
  have hsplit := List.takeWhile_append_dropWhile (p := Char.isDigit) (l := cs)
  cases hd : cs.dropWhile Char.isDigit with
  | nil =>
    rw [hd] at h
    rw [hd, List.append_nil] at hsplit
    simp only [unsignedTail] at h
    by_cases he : (cs.takeWhile Char.isDigit).isEmpty
    · rw [if_pos he] at h; exact absurd h (by simp)
    · rw [if_neg he] at h
      have hall : ∀ c ∈ cs, c.isDigit = true := by
        intro c hc
        rw [← hsplit] at hc
        exact List.mem_takeWhile_imp hc
      obtain ⟨c, r, hcs⟩ : ∃ c r, cs = c :: r := by
        cases hcs : cs with
        | nil => rw [hcs] at he; simp at he
        | cons c r => exact ⟨c, r, rfl⟩
      exact ⟨fun d hd2 => Or.inl (hall d hd2),
        c, r, hcs, hall c (by rw [hcs]; simp)⟩
  | cons c fp =>
    rw [hd] at h
    rw [hd] at hsplit
    simp only [unsignedTail] at h
    by_cases hc : c = '.'
    · rw [if_pos hc] at h
      by_cases hcond : ((cs.takeWhile Char.isDigit).isEmpty || fp.isEmpty
          || !allDigits fp) = true
      · rw [if_pos hcond] at h; exact absurd h (by simp)
      · rw [if_neg hcond] at h
        simp only [Bool.or_eq_true, not_or, Bool.not_eq_true, Bool.not_eq_false] at hcond
        obtain ⟨⟨h1, h2⟩, h3⟩ := hcond
        have h3' : fp.all Char.isDigit = true := by
          simpa [allDigits] using h3
        have hfp : ∀ d ∈ fp, d.isDigit = true := fun d hd2 =>
          List.all_eq_true.mp h3' d hd2
        have hall : ∀ d ∈ cs, d.isDigit = true ∨ d = '.' := by
          intro d hd2
          rw [← hsplit] at hd2
          rcases List.mem_append.mp hd2 with h4 | h4
          · exact Or.inl (List.mem_takeWhile_imp h4)
          · rcases List.mem_cons.mp h4 with h5 | h5
            · exact Or.inr (h5.trans hc)
            · exact Or.inl (hfp d h5)
        cases hip : cs.takeWhile Char.isDigit with
        | nil => rw [hip] at h1; simp at h1
        | cons i ir =>
          refine ⟨hall, i, ir ++ c :: fp, ?_, ?_⟩
          · rw [← hsplit, hip]; rfl
          · exact List.mem_takeWhile_imp (by rw [hip]; exact List.mem_cons_self i ir)
    · rw [if_neg hc] at h; exact absurd h (by simp)

theorem parseMantissa_of_unsigned {cs : List Char} {q : ℚ}
    (h : unsignedNumber? cs = some q) : parseMantissa cs = some q := by
  unfold unsignedNumber? at h
  rw [parseMantissa]
  cases hd : cs.dropWhile Char.isDigit with
  | nil =>
    rw [hd] at h
    simp only [unsignedTail] at h
    simp only [mantissaTail]
    exact h
  | cons c fp =>
    rw [hd] at h
    simp only [unsignedTail] at h
    simp only [mantissaTail]
    by_cases hc : c = '.'
    · rw [if_pos hc] at h ⊢
      by_cases hcond : ((cs.takeWhile Char.isDigit).isEmpty || fp.isEmpty
          || !allDigits fp) = true
      · rw [if_pos hcond] at h; exact absurd h (by simp)
      · rw [if_neg hcond] at h
        simp only [Bool.or_eq_true, not_or, Bool.not_eq_true, Bool.not_eq_false] at hcond
        obtain ⟨⟨h1, h2⟩, h3⟩ := hcond
        have h3' : allDigits fp = true := by simpa using h3
        rw [if_pos (by simp [h3', h1])]
        exact h
    · rw [if_neg hc] at h; exact absurd h (by simp)

theorem rustParse_unsigned {cs : List Char} {q : ℚ} (h : unsignedNumber? cs = some q) :
    rustParseF32 cs = some (.finite q) := by
  obtain ⟨hall, c, r, hcs, hc⟩ := unsigned_facts h
  have hsign : signSplit cs = (false, cs) := by
    rw [hcs, signSplit,
      if_neg (fun he => by rw [he] at hc; exact absurd hc (by decide)),
      if_neg (fun he => by rw [he] at hc; exact absurd hc (by decide))]
  have hlower : cs.map Char.toLower = cs := map_toLower_eq_self hall
  have hne1 : cs ≠ ['i', 'n', 'f'] := fun he => by
    have : ('i' : Char).isDigit = true ∨ ('i' : Char) = '.' := hall 'i' (by rw [he]; simp)
    simpa using this
  have hne2 : cs ≠ ['i', 'n', 'f', 'i', 'n', 'i', 't', 'y'] := fun he => by
    have : ('i' : Char).isDigit = true ∨ ('i' : Char) = '.' := hall 'i' (by rw [he]; simp)
    simpa using this
  have hne3 : cs ≠ ['n', 'a', 'n'] := fun he => by
    have : ('n' : Char).isDigit = true ∨ ('n' : Char) = '.' := hall 'n' (by rw [he]; simp)
    simpa using this
  have hse : splitExp cs = (cs, none) := by
    refine splitExp_no_e (fun d hd => ?_)
    rcases hall d hd with h1 | h1
    · rintro (h2 | h2) <;> (subst h2; simp at h1)
    · subst h1; decide
  rw [rustParseF32]
  simp only [hsign, hlower, hse]
  rw [if_neg (by simp [hne1, hne2]), if_neg (by simpa using hne3)]
  simp [parseMantissa_of_unsigned h]

theorem parseTok_of_unsigned {s : String} {q : ℚ}
    (h : unsignedNumber? s.data = some q) : parseTok s = .ok (.finite q) := by
  have hall := (unsigned_facts h).1
  rw [parseTok, trimChars_eq_self (fun c hc => digitDot_not_whitespace (hall c hc)),
    rustParse_unsigned h]

/-! Tokenizer lemmas: how `tokenize` splits a literal template into tokens. -/

theorem unsigned_tokChar {cs : List Char} {q : ℚ} (h : unsignedNumber? cs = some q) :
    cs ≠ [] ∧ ∀ c ∈ cs, tokChar c = true := by
  obtain ⟨hall, c, r, hcs, _⟩ := unsigned_facts h
  refine ⟨by rw [hcs]; simp, fun d hd => ?_⟩
  rcases hall d hd with h1 | h1
  · simp [tokChar, h1]
  · subst h1; decide

theorem tokenizeGo_nil (p : Bool) (acc : List Char) : tokenizeGo p acc [] = closeTok acc :=
  rfl

theorem tokenizeGo_cons (p : Bool) (acc : List Char) (c : Char) (rest : List Char) :
    tokenizeGo p acc (c :: rest) =
      if tokChar c then
        if p then tokenizeGo false (c :: '/' :: acc) rest
        else tokenizeGo false (c :: acc) rest
      else if c = '/' then closeTok acc ++ tokenizeGo true [] rest
      else closeTok acc ++ tokenizeGo false [] rest :=
  rfl

theorem tokenizeGo_run {cs : List Char} (h : ∀ c ∈ cs, tokChar c = true) :
    ∀ acc rest, tokenizeGo false acc (cs ++ rest) = tokenizeGo false (cs.reverse ++ acc) rest := by
  induction cs with
  | nil => intro acc rest; simp
  | cons c r ih =>
    intro acc rest
    rw [List.cons_append, tokenizeGo_cons, if_pos (h c (by simp)), if_neg (by simp)]
    rw [ih (fun d hd => h d (by simp [hd])) (c :: acc) rest]
    simp

theorem tokenizeGo_sep {c : Char} (h1 : tokChar c = false) (h2 : c ≠ '/')
    (p : Bool) (acc : List Char) (rest : List Char) :
    tokenizeGo p acc (c :: rest) = closeTok acc ++ tokenizeGo false [] rest := by
  rw [tokenizeGo_cons, if_neg (by simp [h1]), if_neg h2]

theorem tokenizeGo_sep_empty {c : Char} (h1 : tokChar c = false) (h2 : c ≠ '/')
    (p : Bool) (rest : List Char) :
    tokenizeGo p [] (c :: rest) = tokenizeGo false [] rest := by
  rw [tokenizeGo_sep h1 h2, closeTok]
  simp

theorem tok_run_sep {cs : List Char} (hne : cs ≠ []) (hall : ∀ c ∈ cs, tokChar c = true)
    {c : Char} (h1 : tokChar c = false) (h2 : c ≠ '/') (rest : List Char) :
    tokenizeGo false [] (cs ++ c :: rest) = String.mk cs :: tokenizeGo false [] rest := by
  rw [tokenizeGo_run hall [] _, tokenizeGo_sep h1 h2, closeTok]
  simp [hne]

theorem tok_run_end {cs : List Char} (hne : cs ≠ []) (hall : ∀ c ∈ cs, tokChar c = true) :
    tokenizeGo false [] cs = [String.mk cs] := by
  have := tokenizeGo_run hall [] []
  rw [List.append_nil] at this
  rw [this, tokenizeGo_nil, closeTok]
  simp [hne]


theorem gnum_shape (s : String) :
    s.data = gnumCore s ∨ s.data = '-' :: gnumCore s := by
  by_cases hneg : ∃ r, s.data = '-' :: r
  · obtain ⟨r, hr⟩ := hneg
    right
    rw [gnumCore.eq_def, hr]
    simp
  · left
    rw [gnumCore.eq_def]
    cases hd : s.data with
    | nil => simp
    | cons c r =>
      have hc : c ≠ '-' := fun he => hneg ⟨r, by rw [hd, he]⟩
      simp [hc]

theorem tokenize_segs : ∀ segs : List Seg, (∀ s ∈ segs, segOk s) → segsWf segs →
    tokenizeGo false [] (segChars segs) = segToks segs
  | [], _, _ => by rw [segChars, segToks, tokenizeGo_nil, closeTok]; simp
  | .sep c :: rest, h, hwf => by
    have hc : segOk (.sep c) := h _ (by simp)
    rw [segChars, tokenizeGo_sep_empty hc.1 hc.2, segToks]
    exact tokenize_segs rest (fun s hs => h s (by simp [hs])) hwf
  | .run cs :: [], h, _ => by
    have hc : segOk (.run cs) := h _ (by simp)
    rw [segChars, segChars, List.append_nil, segToks, segToks]
    exact tok_run_end hc.1 hc.2
  | .run cs :: .sep c :: rest, h, hwf => by
    have hr : segOk (.run cs) := h _ (by simp)
    have hc : segOk (.sep c) := h _ (by simp)
    rw [segChars, segChars, tok_run_sep hr.1 hr.2 hc.1 hc.2, segToks, segToks]
    rw [tokenize_segs rest (fun s hs => h s (by simp [hs])) hwf]
  | .arg s :: [], h, _ => by
    obtain ⟨q, hq⟩ : segOk (.arg s) := h _ (by simp)
    have hcore := unsigned_tokChar hq
    rw [segChars, segChars, List.append_nil, segToks, segToks]
    rcases gnum_shape s with hs | hs <;> rw [hs]
    · exact tok_run_end hcore.1 hcore.2
    · rw [tokenizeGo_sep_empty (by decide) (by decide)]
      exact tok_run_end hcore.1 hcore.2
  | .arg s :: .sep c :: rest, h, hwf => by
    obtain ⟨q, hq⟩ : segOk (.arg s) := h _ (by simp)
    have hc : segOk (.sep c) := h _ (by simp)
    have hcore := unsigned_tokChar hq
    rw [segChars, segChars]
    have htail := tokenize_segs rest (fun s2 hs => h s2 (by simp [hs])) hwf
    rcases gnum_shape s with hs | hs <;> rw [hs]
    · rw [tok_run_sep hcore.1 hcore.2 hc.1 hc.2, segToks, segToks, htail]
    · rw [List.cons_append, tokenizeGo_sep_empty (by decide) (by decide),
        tok_run_sep hcore.1 hcore.2 hc.1 hc.2, segToks, segToks, htail]

/-! Decoder step lemmas: one-step unfoldings of the `setGo` loop. -/

theorem setGo_nil (all : List String) (key : String) (u2 u3 : Bool) (d : Dictionary)
    (p2 : List Vector2) (p3 : List Vector3) :
    setGo all key u2 u3 [] d p2 p3 = .ok (d, p2, p3) := by
  rw [setGo.eq_def]

theorem not_tag_iff {s : String} : s ∉ godot_types ↔
    (s ≠ "Vector2" ∧ s ≠ "Vector3" ∧ s ≠ "Color" ∧ s ≠ "Rect2" ∧ s ≠ "Plane" ∧
      s ≠ "Transform2D" ∧ s ≠ "Basis" ∧ s ≠ "Transform") := by
  simp [godot_types]

theorem setGo_skip {item : String} (h : item ∉ godot_types) (all : List String)
    (key : String) (u2 u3 : Bool) (rest : List String) (d : Dictionary)
    (p2 : List Vector2) (p3 : List Vector3) :
    setGo all key u2 u3 (item :: rest) d p2 p3 = setGo all key u2 u3 rest d p2 p3 := by
  obtain ⟨h1, h2, h3, h4, h5, h6, h7, h8⟩ := not_tag_iff.mp h
  rw [setGo.eq_def]
  simp only [if_neg h1, if_neg h2, if_neg h3, if_neg h4, if_neg h5, if_neg h6,
    if_neg h7, if_neg h8]

theorem setGo_skipAll {l : List String} (h : ∀ t ∈ l, t ∉ godot_types)
    (all : List String) (key : String) (u2 u3 : Bool) (d : Dictionary)
    (p2 : List Vector2) (p3 : List Vector3) :
    setGo all key u2 u3 l d p2 p3 = .ok (d, p2, p3) := by
  induction l with
  | nil => exact setGo_nil ..
  | cons t rest ih =>
    rw [setGo_skip (h t (by simp)) ..]
    exact ih (fun s hs => h s (by simp [hs]))

theorem setGo_v2 (all : List String) (key : String) (u2 u3 : Bool) (x y : String)
    (tail : List String) (d : Dictionary) (p2 : List Vector2) (p3 : List Vector3) :
    setGo all key u2 u3 ("Vector2" :: x :: y :: tail) d p2 p3 =
      match encode_vector2 x y with
      | .error e => .error e
      | .ok v =>
        if u2 then setGo all key u2 u3 (x :: y :: tail) d (p2 ++ [v]) p3
        else .ok (dictSet d key (.vector2 v), p2, p3) := by
  rw [setGo.eq_def]
  simp [readTok]

theorem setGo_v3 (all : List String) (key : String) (u2 u3 : Bool) (x y z : String)
    (tail : List String) (d : Dictionary) (p2 : List Vector2) (p3 : List Vector3) :
    setGo all key u2 u3 ("Vector3" :: x :: y :: z :: tail) d p2 p3 =
      match encode_vector3 x y z with
      | .error e => .error e
      | .ok v =>
        if u3 then setGo all key u2 u3 (x :: y :: z :: tail) d p2 (p3 ++ [v])
        else .ok (dictSet d key (.vector3 v), p2, p3) := by
  rw [setGo.eq_def]
  simp [readTok]

theorem setGo_color_not5 (hall : all.length ≠ 5) (key : String) (u2 u3 : Bool)
    (r g b : String) (tail : List String) (d : Dictionary) (p2 : List Vector2)
    (p3 : List Vector3) :
    setGo all key u2 u3 ("Color" :: r :: g :: b :: tail) d p2 p3 =
      match encode_color r g b none with
      | .error e => .error e
      | .ok c => .ok (dictSet d key (.color c), p2, p3) := by
  rw [setGo.eq_def]
  simp [readTok, if_neg hall]

theorem setGo_color5 (hall : all.length = 5) (key : String) (u2 u3 : Bool)
    (r g b a : String) (tail : List String) (d : Dictionary) (p2 : List Vector2)
    (p3 : List Vector3) :
    setGo all key u2 u3 ("Color" :: r :: g :: b :: a :: tail) d p2 p3 =
      match encode_color r g b (some a) with
      | .error e => .error e
      | .ok c => .ok (dictSet d key (.color c), p2, p3) := by
  rw [setGo.eq_def]
  simp [readTok, if_pos hall]

theorem setGo_rect2 (all : List String) (key : String) (u2 u3 : Bool)
    (rest : List String) (d : Dictionary) (p2 : List Vector2) (p3 : List Vector3) :
    setGo all key u2 u3 ("Rect2" :: rest) d p2 p3 =
      match setGo rest key true false rest d [] [] with
      | .error e => .error e
      | .ok (d2, pool, _) =>
        match readPool pool 0 with
        | .error e => .error e
        | .ok v0 =>
          match readPool pool 1 with
          | .error e => .error e
          | .ok v1 => .ok (dictSet d2 key (.rect2 (encode_rect2 v0 v1)), p2, p3) := by
  rw [setGo.eq_def]
  simp

theorem setGo_plane (all : List String) (key : String) (u2 u3 : Bool)
    (rest : List String) (d : Dictionary) (p2 : List Vector2) (p3 : List Vector3) :
    setGo all key u2 u3 ("Plane" :: rest) d p2 p3 =
      match setGo rest key false true rest d [] [] with
      | .error e => .error e
      | .ok (d2, _, pool) =>
        match readPool pool 0 with
        | .error e => .error e
        | .ok n =>
          match readTok all (all.length - 1) with
          | .error e => .error e
          | .ok dTok =>
            match encode_plane n dTok with
            | .error e => .error e
            | .ok pl => .ok (dictSet d2 key (.plane pl), p2, p3) := by
  rw [setGo.eq_def]
  simp

theorem setGo_t2d (all : List String) (key : String) (u2 u3 : Bool)
    (rest : List String) (d : Dictionary) (p2 : List Vector2) (p3 : List Vector3) :
    setGo all key u2 u3 ("Transform2D" :: rest) d p2 p3 =
      match setGo rest key true false rest d [] [] with
      | .error e => .error e
      | .ok (d2, pool, _) =>
        match readPool pool 0 with
        | .error e => .error e
        | .ok v0 =>
          match readPool pool 1 with
          | .error e => .error e
          | .ok v1 =>
            match readPool pool 2 with
            | .error e => .error e
            | .ok v2 =>
              .ok (dictSet d2 key (.transform2d (encode_transform2d v0 v1 v2)), p2, p3) := by
  rw [setGo.eq_def]
  simp

theorem setGo_basis (all : List String) (key : String) (u2 u3 : Bool)
    (rest : List String) (d : Dictionary) (p2 : List Vector2) (p3 : List Vector3) :
    setGo all key u2 u3 ("Basis" :: rest) d p2 p3 =
      match setGo rest key false true rest d [] [] with
      | .error e => .error e
      | .ok (d2, _, pool) =>
        match readPool pool 0 with
        | .error e => .error e
        | .ok v0 =>
          match readPool pool 1 with
          | .error e => .error e
          | .ok v1 =>
            match readPool pool 2 with
            | .error e => .error e
            | .ok v2 => .ok (dictSet d2 key (.basis (encode_basis v0 v1 v2)), p2, p3) := by
  rw [setGo.eq_def]
  simp

theorem setGo_trans (all : List String) (key : String) (u2 u3 : Bool)
    (rest : List String) (d : Dictionary) (p2 : List Vector2) (p3 : List Vector3) :
    setGo all key u2 u3 ("Transform" :: rest) d p2 p3 =
      match setGo rest key false true rest d [] [] with
      | .error e => .error e
      | .ok (d2, _, pool) =>
        match readPool pool 0 with
        | .error e => .error e
        | .ok v0 =>
          match readPool pool 1 with
          | .error e => .error e
          | .ok v1 =>
            match readPool pool 2 with
            | .error e => .error e
            | .ok v2 =>
              match readPool pool 3 with
              | .error e => .error e
              | .ok v3 =>
                .ok (dictSet d2 key (.transform (encode_transform v0 v1 v2 v3)), p2, p3) := by
  rw [setGo.eq_def]
  simp

/-! Scan lemmas: processing a sequence of nested vector literal fragments
with a pool supplied, as the recursive calls for composite types do. -/

theorem parseTok_not_tag {s : String} {v : F32} (h : parseTok s = .ok v) :
    s ∉ godot_types := by
  intro hmem
  have hall : ∀ t ∈ godot_types, parseTok t = .error .malformedLiteral := by decide
  rw [hall s hmem] at h
  exact absurd h (by simp)

theorem encode_v2_parts {x y : String} {v : Vector2} (h : encode_vector2 x y = .ok v) :
    ∃ vx vy, parseTok x = .ok vx ∧ parseTok y = .ok vy ∧ v = ⟨vx, vy⟩ := by
  unfold encode_vector2 at h
  cases hx : parseTok x with
  | error e => rw [hx] at h; exact absurd h (by simp [Bind.bind, Except.bind])
  | ok vx =>
    rw [hx] at h
    cases hy : parseTok y with
    | error e => rw [hy] at h; exact absurd h (by simp [Bind.bind, Except.bind])
    | ok vy =>
      rw [hy] at h
      simp [Bind.bind, Except.bind, pure, Except.pure] at h
      exact ⟨vx, vy, rfl, rfl, h.symm⟩

theorem encode_v3_parts {x y z : String} {v : Vector3} (h : encode_vector3 x y z = .ok v) :
    ∃ vx vy vz, parseTok x = .ok vx ∧ parseTok y = .ok vy ∧ parseTok z = .ok vz ∧
      v = ⟨vx, vy, vz⟩ := by
  unfold encode_vector3 at h
  cases hx : parseTok x with
  | error e => rw [hx] at h; exact absurd h (by simp [Bind.bind, Except.bind])
  | ok vx =>
    rw [hx] at h
    cases hy : parseTok y with
    | error e => rw [hy] at h; exact absurd h (by simp [Bind.bind, Except.bind])
    | ok vy =>
      rw [hy] at h
      cases hz : parseTok z with
      | error e => rw [hz] at h; exact absurd h (by simp [Bind.bind, Except.bind])
      | ok vz =>
        rw [hz] at h
        simp [Bind.bind, Except.bind, pure, Except.pure] at h
        exact ⟨vx, vy, vz, rfl, rfl, rfl, h.symm⟩

theorem scan_v2s_ok {vs : List V2Lit} {ws : List Vector2} (h : decodeV2s vs = .ok ws) :
    ∀ all key u3 tail d p2 p3,
      setGo all key true u3 ((vs.map V2Lit.toks).flatten ++ tail) d p2 p3 =
        setGo all key true u3 tail d (p2 ++ ws) p3 := by
  induction vs generalizing ws with
  | nil =>
    intro all key u3 tail d p2 p3
    rw [decodeV2s] at h
    simp only [Except.ok.injEq] at h
    subst h
    simp
  | cons v rest ih =>
    intro all key u3 tail d p2 p3
    rw [decodeV2s] at h
    cases hv : encode_vector2 v.x v.y with
    | error e => rw [hv] at h; exact absurd h (by simp)
    | ok w =>
      rw [hv] at h
      cases hrest : decodeV2s rest with
      | error e => rw [hrest] at h; exact absurd h (by simp)
      | ok ws' =>
        rw [hrest] at h
        simp only [Except.ok.injEq] at h
        subst h
        obtain ⟨vx, vy, hx, hy, _⟩ := encode_v2_parts hv
        have hjoin : ((v :: rest).map V2Lit.toks).flatten ++ tail =
            "Vector2" :: v.x :: v.y :: ((rest.map V2Lit.toks).flatten ++ tail) := by
          simp [V2Lit.toks]
        rw [hjoin, setGo_v2, hv]
        simp only [if_true]
        rw [setGo_skip (parseTok_not_tag hx) .., setGo_skip (parseTok_not_tag hy) ..,
          ih hrest ..]
        simp

theorem scan_v2s_err {vs : List V2Lit} {e : DErr} (h : decodeV2s vs = .error e) :
    ∀ all key u3 tail d p2 p3,
      setGo all key true u3 ((vs.map V2Lit.toks).flatten ++ tail) d p2 p3 = .error e := by
  induction vs with
  | nil => rw [decodeV2s] at h; exact absurd h (by simp)
  | cons v rest ih =>
    intro all key u3 tail d p2 p3
    rw [decodeV2s] at h
    have hjoin : ((v :: rest).map V2Lit.toks).flatten ++ tail =
        "Vector2" :: v.x :: v.y :: ((rest.map V2Lit.toks).flatten ++ tail) := by
      simp [V2Lit.toks]
    rw [hjoin, setGo_v2]
    cases hv : encode_vector2 v.x v.y with
    | error e2 => rw [hv] at h; simp only [Except.error.injEq] at h; subst h; rfl
    | ok w =>
      rw [hv] at h
      cases hrest : decodeV2s rest with
      | error e2 =>
        rw [hrest] at h
        simp only [Except.error.injEq] at h
        subst h
        obtain ⟨vx, vy, hx, hy, _⟩ := encode_v2_parts hv
        simp only [if_true]
        rw [setGo_skip (parseTok_not_tag hx) .., setGo_skip (parseTok_not_tag hy) ..]
        exact ih hrest ..
      | ok ws' => rw [hrest] at h; exact absurd h (by simp)

theorem scan_v3s_ok {vs : List V3Lit} {ws : List Vector3} (h : decodeV3s vs = .ok ws) :
    ∀ all key u2 tail d p2 p3,
      setGo all key u2 true ((vs.map V3Lit.toks).flatten ++ tail) d p2 p3 =
        setGo all key u2 true tail d p2 (p3 ++ ws) := by
  induction vs generalizing ws with
  | nil =>
    intro all key u2 tail d p2 p3
    rw [decodeV3s] at h
    simp only [Except.ok.injEq] at h
    subst h
    simp
  | cons v rest ih =>
    intro all key u2 tail d p2 p3
    rw [decodeV3s] at h
    cases hv : encode_vector3 v.x v.y v.z with
    | error e => rw [hv] at h; exact absurd h (by simp)
    | ok w =>
      rw [hv] at h
      cases hrest : decodeV3s rest with
      | error e => rw [hrest] at h; exact absurd h (by simp)
      | ok ws' =>
        rw [hrest] at h
        simp only [Except.ok.injEq] at h
        subst h
        obtain ⟨vx, vy, vz, hx, hy, hz, _⟩ := encode_v3_parts hv
        have hjoin : ((v :: rest).map V3Lit.toks).flatten ++ tail =
            "Vector3" :: v.x :: v.y :: v.z :: ((rest.map V3Lit.toks).flatten ++ tail) := by
          simp [V3Lit.toks]
        rw [hjoin, setGo_v3, hv]
        simp only [if_true]
        rw [setGo_skip (parseTok_not_tag hx) .., setGo_skip (parseTok_not_tag hy) ..,
          setGo_skip (parseTok_not_tag hz) .., ih hrest ..]
        simp

theorem scan_v3s_err {vs : List V3Lit} {e : DErr} (h : decodeV3s vs = .error e) :
    ∀ all key u2 tail d p2 p3,
      setGo all key u2 true ((vs.map V3Lit.toks).flatten ++ tail) d p2 p3 = .error e := by
  induction vs with
  | nil => rw [decodeV3s] at h; exact absurd h (by simp)
  | cons v rest ih =>
    intro all key u2 tail d p2 p3
    rw [decodeV3s] at h
    have hjoin : ((v :: rest).map V3Lit.toks).flatten ++ tail =
        "Vector3" :: v.x :: v.y :: v.z :: ((rest.map V3Lit.toks).flatten ++ tail) := by
      simp [V3Lit.toks]
    rw [hjoin, setGo_v3]
    cases hv : encode_vector3 v.x v.y v.z with
    | error e2 => rw [hv] at h; simp only [Except.error.injEq] at h; subst h; rfl
    | ok w =>
      rw [hv] at h
      cases hrest : decodeV3s rest with
      | error e2 =>
        rw [hrest] at h
        simp only [Except.error.injEq] at h
        subst h
        obtain ⟨vx, vy, vz, hx, hy, hz, _⟩ := encode_v3_parts hv
        simp only [if_true]
        rw [setGo_skip (parseTok_not_tag hx) .., setGo_skip (parseTok_not_tag hy) ..,
          setGo_skip (parseTok_not_tag hz) ..]
        exact ih hrest ..
      | ok ws' => rw [hrest] at h; exact absurd h (by simp)

/-! Unfolding lemmas for the tree builder and scanner entry points. -/

theorem populateValue_str (d : Dictionary) (k s : String) :
    populateValue d k (.str s) =
      if s.data.contains '(' then encode_godot_types d k s
      else .ok (dictSet d k (.str s)) := by
  rw [populateValue]

theorem encode_empty_tokens {v : String} (h : tokenize v = []) (d : Dictionary)
    (k : String) : encode_godot_types d k v = .error .indexError := by
  rw [encode_godot_types, h]
  rfl

theorem encode_unknown_tag {v t0 : String} {ts : List String}
    (h : tokenize v = t0 :: ts) (hno : t0 ∉ godot_types) (d : Dictionary) (k : String) :
    encode_godot_types d k v = .ok (dictSet d k (.str v)) := by
  have hc : godot_types.contains t0 = false := by
    by_contra hcc
    rw [Bool.not_eq_false] at hcc
    exact hno (by simpa using hcc)
  rw [encode_godot_types, h]
  simp only [List.get?, hc]
  rw [if_neg (by simp)]

theorem encode_known_tag_ok {v t0 : String} {ts : List String} {d d2 : Dictionary}
    {k : String} {a : List Vector2} {b : List Vector3}
    (h : tokenize v = t0 :: ts) (hyes : t0 ∈ godot_types)
    (hset : set_godot_type_to_dictionary (t0 :: ts) k d = .ok (d2, a, b)) :
    encode_godot_types d k v = .ok d2 := by
  have hc : godot_types.contains t0 = true := by simpa using hyes
  rw [encode_godot_types, h]
  simp only [List.get?, hc]
  rw [if_pos trivial, hset]

theorem encode_known_tag_err {v t0 : String} {ts : List String} {d : Dictionary}
    {k : String} {e : DErr}
    (h : tokenize v = t0 :: ts) (hyes : t0 ∈ godot_types)
    (hset : set_godot_type_to_dictionary (t0 :: ts) k d = .error e) :
    encode_godot_types d k v = .error e := by
  have hc : godot_types.contains t0 = true := by simpa using hyes
  rw [encode_godot_types, h]
  simp only [List.get?, hc]
  rw [if_pos trivial, hset]

/-! Evaluation lemmas for the value constructors. -/

theorem encode_vector2_eq {x y : String} {vx vy : F32}
    (hx : parseTok x = .ok vx) (hy : parseTok y = .ok vy) :
    encode_vector2 x y = .ok ⟨vx, vy⟩ := by
  unfold encode_vector2
  rw [hx, hy]
  rfl

theorem encode_vector3_eq {x y z : String} {vx vy vz : F32}
    (hx : parseTok x = .ok vx) (hy : parseTok y = .ok vy) (hz : parseTok z = .ok vz) :
    encode_vector3 x y z = .ok ⟨vx, vy, vz⟩ := by
  unfold encode_vector3
  rw [hx, hy, hz]
  rfl

theorem encode_color_none_eq {r g b : String} {vr vg vb : F32}
    (hr : parseTok r = .ok vr) (hg : parseTok g = .ok vg) (hb : parseTok b = .ok vb) :
    encode_color r g b none = .ok ⟨vr, vg, vb, .finite 1⟩ := by
  unfold encode_color
  rw [hr, hg, hb]
  rfl

theorem encode_color_some_eq {r g b a : String} {vr vg vb va : F32}
    (hr : parseTok r = .ok vr) (hg : parseTok g = .ok vg) (hb : parseTok b = .ok vb)
    (ha : parseTok a = .ok va) :
    encode_color r g b (some a) = .ok ⟨vr, vg, vb, va⟩ := by
  unfold encode_color
  rw [hr, hg, hb]
  simp only [ha]
  rfl

theorem encode_plane_eq {dTok : String} {vd : F32} (hd : parseTok dTok = .ok vd)
    (n : Vector3) : encode_plane n dTok = .ok ⟨n, vd⟩ := by
  unfold encode_plane
  rw [hd]
  rfl

theorem readTok_last (l : List String) (xx : String) :
    readTok (l ++ [xx]) ((l ++ [xx]).length - 1) = .ok xx := by
  rw [readTok]
  have hlen : (l ++ [xx]).length - 1 = l.length := by simp
  rw [hlen, List.get?_concat_length]

/-! Tokenization of the literal templates used by the claims. -/

theorem gnumCore_unsigned {x : String} {q : ℚ} (h : unsignedNumber? x.data = some q) :
    gnumCore x = x.data := by
  obtain ⟨_, c, r, hcs, hc⟩ := unsigned_facts h
  have hcne : c ≠ '-' := fun he => by rw [he] at hc; exact absurd hc (by decide)
  rw [gnumCore.eq_def, hcs]
  simp [hcne]

theorem tok_v2_template {x y : String} {qx qy : ℚ}
    (hx : unsignedNumber? x.data = some qx) (hy : unsignedNumber? y.data = some qy) :
    tokenize ("Vector2(" ++ x ++ ", " ++ y ++ ")") = ["Vector2", x, y] := by
  have hgx := gnumCore_unsigned hx
  have hgy := gnumCore_unsigned hy
  have hseg := tokenize_segs
    [.run "Vector2".data, .sep '(', .arg x, .sep ',', .sep ' ', .arg y, .sep ')']
    (by
      intro sg hsg
      simp only [List.mem_cons, List.not_mem_nil, or_false] at hsg
      rcases hsg with h1 | h1 | h1 | h1 | h1 | h1 | h1 <;> subst h1
      · exact ⟨by decide, by decide⟩
      · exact ⟨by decide, by decide⟩
      · exact ⟨qx, by rw [hgx]; exact hx⟩
      · exact ⟨by decide, by decide⟩
      · exact ⟨by decide, by decide⟩
      · exact ⟨qy, by rw [hgy]; exact hy⟩
      · exact ⟨by decide, by decide⟩)
    (by constructor)
  rw [tokenize]
  have hchars : ("Vector2(" ++ x ++ ", " ++ y ++ ")").data =
      segChars [.run "Vector2".data, .sep '(', .arg x, .sep ',', .sep ' ', .arg y,
        .sep ')'] := by
    simp [segChars, String.data_append]
  rw [hchars, hseg]
  simp [segToks, hgx, hgy]

theorem tok_v3_template {x y z : String} {qx qy qz : ℚ}
    (hx : unsignedNumber? x.data = some qx) (hy : unsignedNumber? y.data = some qy)
    (hz : unsignedNumber? z.data = some qz) :
    tokenize ("Vector3(" ++ x ++ ", " ++ y ++ ", " ++ z ++ ")") = ["Vector3", x, y, z] := by
  have hgx := gnumCore_unsigned hx
  have hgy := gnumCore_unsigned hy
  have hgz := gnumCore_unsigned hz
  have hseg := tokenize_segs
    [.run "Vector3".data, .sep '(', .arg x, .sep ',', .sep ' ', .arg y, .sep ',',
      .sep ' ', .arg z, .sep ')']
    (by
      intro sg hsg
      simp only [List.mem_cons, List.not_mem_nil, or_false] at hsg
      rcases hsg with h1 | h1 | h1 | h1 | h1 | h1 | h1 | h1 | h1 | h1 <;> subst h1
      · exact ⟨by decide, by decide⟩
      · exact ⟨by decide, by decide⟩
      · exact ⟨qx, by rw [hgx]; exact hx⟩
      · exact ⟨by decide, by decide⟩
      · exact ⟨by decide, by decide⟩
      · exact ⟨qy, by rw [hgy]; exact hy⟩
      · exact ⟨by decide, by decide⟩
      · exact ⟨by decide, by decide⟩
      · exact ⟨qz, by rw [hgz]; exact hz⟩
      · exact ⟨by decide, by decide⟩)
    (by constructor)
  rw [tokenize]
  have hchars : ("Vector3(" ++ x ++ ", " ++ y ++ ", " ++ z ++ ")").data =
      segChars [.run "Vector3".data, .sep '(', .arg x, .sep ',', .sep ' ', .arg y,
        .sep ',', .sep ' ', .arg z, .sep ')'] := by
    simp [segChars, String.data_append]
  rw [hchars, hseg]
  simp [segToks, hgx, hgy, hgz]

theorem tok_color3_template {r g b : String} {qr qg qb : ℚ}
    (hr : gnumVal? r = some qr)
    (hg : gnumVal? g = some qg)
    (hb : gnumVal? b = some qb) :
    tokenize ("Color(" ++ r ++ ", " ++ g ++ ", " ++ b ++ ")") =
      ["Color", String.mk (gnumCore r), String.mk (gnumCore g),
        String.mk (gnumCore b)] := by
  rw [gnumVal?] at hr hg hb
  have hseg := tokenize_segs
    [.run "Color".data, .sep '(', .arg r, .sep ',', .sep ' ', .arg g, .sep ',', .sep ' ', .arg b, .sep ')']
    (by
      intro sg hsg
      simp only [List.mem_cons, List.not_mem_nil, or_false] at hsg
      rcases hsg with h1 | h1 | h1 | h1 | h1 | h1 | h1 | h1 | h1 | h1 <;> subst h1
      · exact ⟨by decide, by decide⟩
      · exact ⟨by decide, by decide⟩
      · exact ⟨qr, hr⟩
      · exact ⟨by decide, by decide⟩
      · exact ⟨by decide, by decide⟩
      · exact ⟨qg, hg⟩
      · exact ⟨by decide, by decide⟩
      · exact ⟨by decide, by decide⟩
      · exact ⟨qb, hb⟩
      · exact ⟨by decide, by decide⟩)
    (by constructor)
  rw [tokenize]
  have hchars : ("Color(" ++ r ++ ", " ++ g ++ ", " ++ b ++ ")").data =
      segChars [.run "Color".data, .sep '(', .arg r, .sep ',', .sep ' ', .arg g, .sep ',', .sep ' ', .arg b, .sep ')'] := by
    simp [segChars, String.data_append]
  rw [hchars, hseg]
  simp [segToks]

theorem tok_color4_template {r g b a : String} {qr qg qb qa : ℚ}
    (hr : gnumVal? r = some qr)
    (hg : gnumVal? g = some qg)
    (hb : gnumVal? b = some qb)
    (ha : gnumVal? a = some qa) :
    tokenize ("Color(" ++ r ++ ", " ++ g ++ ", " ++ b ++ ", " ++ a ++ ")") =
      ["Color", String.mk (gnumCore r), String.mk (gnumCore g),
        String.mk (gnumCore b), String.mk (gnumCore a)] := by
  rw [gnumVal?] at hr hg hb ha
  have hseg := tokenize_segs
    [.run "Color".data, .sep '(', .arg r, .sep ',', .sep ' ', .arg g, .sep ',', .sep ' ', .arg b, .sep ',', .sep ' ', .arg a, .sep ')']
    (by
      intro sg hsg
      simp only [List.mem_cons, List.not_mem_nil, or_false] at hsg
      rcases hsg with h1 | h1 | h1 | h1 | h1 | h1 | h1 | h1 | h1 | h1 | h1 | h1 | h1 <;> subst h1
      · exact ⟨by decide, by decide⟩
      · exact ⟨by decide, by decide⟩
      · exact ⟨qr, hr⟩
      · exact ⟨by decide, by decide⟩
      · exact ⟨by decide, by decide⟩
      · exact ⟨qg, hg⟩
      · exact ⟨by decide, by decide⟩
      · exact ⟨by decide, by decide⟩
      · exact ⟨qb, hb⟩
      · exact ⟨by decide, by decide⟩
      · exact ⟨by decide, by decide⟩
      · exact ⟨qa, ha⟩
      · exact ⟨by decide, by decide⟩)
    (by constructor)
  rw [tokenize]
  have hchars : ("Color(" ++ r ++ ", " ++ g ++ ", " ++ b ++ ", " ++ a ++ ")").data =
      segChars [.run "Color".data, .sep '(', .arg r, .sep ',', .sep ' ', .arg g, .sep ',', .sep ' ', .arg b, .sep ',', .sep ' ', .arg a, .sep ')'] := by
    simp [segChars, String.data_append]
  rw [hchars, hseg]
  simp [segToks]

theorem tok_color5_template {r g b a e2 : String} {qr qg qb qa qe2 : ℚ}
    (hr : gnumVal? r = some qr)
    (hg : gnumVal? g = some qg)
    (hb : gnumVal? b = some qb)
    (ha : gnumVal? a = some qa)
    (he2 : gnumVal? e2 = some qe2) :
    tokenize ("Color(" ++ r ++ ", " ++ g ++ ", " ++ b ++ ", " ++ a ++ ", " ++ e2 ++ ")") =
      ["Color", String.mk (gnumCore r), String.mk (gnumCore g),
        String.mk (gnumCore b), String.mk (gnumCore a), String.mk (gnumCore e2)] := by
  rw [gnumVal?] at hr hg hb ha he2
  have hseg := tokenize_segs
    [.run "Color".data, .sep '(', .arg r, .sep ',', .sep ' ', .arg g, .sep ',', .sep ' ', .arg b, .sep ',', .sep ' ', .arg a, .sep ',', .sep ' ', .arg e2, .sep ')']
    (by
      intro sg hsg
      simp only [List.mem_cons, List.not_mem_nil, or_false] at hsg
      rcases hsg with h1 | h1 | h1 | h1 | h1 | h1 | h1 | h1 | h1 | h1 | h1 | h1 | h1 | h1 | h1 | h1 <;> subst h1
      · exact ⟨by decide, by decide⟩
      · exact ⟨by decide, by decide⟩
      · exact ⟨qr, hr⟩
      · exact ⟨by decide, by decide⟩
      · exact ⟨by decide, by decide⟩
      · exact ⟨qg, hg⟩
      · exact ⟨by decide, by decide⟩
      · exact ⟨by decide, by decide⟩
      · exact ⟨qb, hb⟩
      · exact ⟨by decide, by decide⟩
      · exact ⟨by decide, by decide⟩
      · exact ⟨qa, ha⟩
      · exact ⟨by decide, by decide⟩
      · exact ⟨by decide, by decide⟩
      · exact ⟨qe2, he2⟩
      · exact ⟨by decide, by decide⟩)
    (by constructor)
  rw [tokenize]
  have hchars : ("Color(" ++ r ++ ", " ++ g ++ ", " ++ b ++ ", " ++ a ++ ", " ++ e2 ++ ")").data =
      segChars [.run "Color".data, .sep '(', .arg r, .sep ',', .sep ' ', .arg g, .sep ',', .sep ' ', .arg b, .sep ',', .sep ' ', .arg a, .sep ',', .sep ' ', .arg e2, .sep ')'] := by
    simp [segChars, String.data_append]
  rw [hchars, hseg]
  simp [segToks]

theorem tok_plane_template {x y z w : String} {qx qy qz qw : ℚ}
    (hx : gnumVal? x = some qx) (hy : gnumVal? y = some qy)
    (hz : gnumVal? z = some qz) (hw : gnumVal? w = some qw) :
    tokenize ("Plane(Vector3(" ++ x ++ ", " ++ y ++ ", " ++ z ++ "), " ++ w ++ ")") =
      ["Plane", "Vector3", String.mk (gnumCore x), String.mk (gnumCore y),
        String.mk (gnumCore z), String.mk (gnumCore w)] := by
  rw [gnumVal?] at hx hy hz hw
  have hseg := tokenize_segs
    [.run "Plane".data, .sep '(', .run "Vector3".data, .sep '(', .arg x, .sep ',', .sep ' ', .arg y, .sep ',', .sep ' ', .arg z, .sep ')', .sep ',', .sep ' ', .arg w, .sep ')']
    (by
      intro sg hsg
      simp only [List.mem_cons, List.not_mem_nil, or_false] at hsg
      rcases hsg with h1 | h1 | h1 | h1 | h1 | h1 | h1 | h1 | h1 | h1 | h1 | h1 | h1 | h1 | h1 | h1 <;> subst h1
      · exact ⟨by decide, by decide⟩
      · exact ⟨by decide, by decide⟩
      · exact ⟨by decide, by decide⟩
      · exact ⟨by decide, by decide⟩
      · exact ⟨qx, hx⟩
      · exact ⟨by decide, by decide⟩
      · exact ⟨by decide, by decide⟩
      · exact ⟨qy, hy⟩
      · exact ⟨by decide, by decide⟩
      · exact ⟨by decide, by decide⟩
      · exact ⟨qz, hz⟩
      · exact ⟨by decide, by decide⟩
      · exact ⟨by decide, by decide⟩
      · exact ⟨by decide, by decide⟩
      · exact ⟨qw, hw⟩
      · exact ⟨by decide, by decide⟩)
    (by constructor)
  rw [tokenize]
  have hchars : ("Plane(Vector3(" ++ x ++ ", " ++ y ++ ", " ++ z ++ "), " ++ w ++ ")").data =
      segChars [.run "Plane".data, .sep '(', .run "Vector3".data, .sep '(', .arg x, .sep ',', .sep ' ', .arg y, .sep ',', .sep ' ', .arg z, .sep ')', .sep ',', .sep ' ', .arg w, .sep ')'] := by
    simp [segChars, String.data_append]
  rw [hchars, hseg]
  simp [segToks]

theorem decodeV2s_cons_ok {v : V2Lit} {rest : List V2Lit} {w : Vector2}
    {ws : List Vector2} (hv : encode_vector2 v.x v.y = .ok w)
    (hrest : decodeV2s rest = .ok ws) : decodeV2s (v :: rest) = .ok (w :: ws) := by
  rw [decodeV2s, hv, hrest]

theorem decodeV3s_cons_ok {v : V3Lit} {rest : List V3Lit} {w : Vector3}
    {ws : List Vector3} (hv : encode_vector3 v.x v.y v.z = .ok w)
    (hrest : decodeV3s rest = .ok ws) : decodeV3s (v :: rest) = .ok (w :: ws) := by
  rw [decodeV3s, hv, hrest]

theorem scan_v2s_ok_nil {vs : List V2Lit} {ws : List Vector2}
    (h : decodeV2s vs = .ok ws) (all : List String) (key : String) (u3 : Bool)
    (d : Dictionary) (p2 : List Vector2) (p3 : List Vector3) :
    setGo all key true u3 ((vs.map V2Lit.toks).flatten) d p2 p3 = .ok (d, p2 ++ ws, p3) := by
  have h2 := scan_v2s_ok h all key u3 [] d p2 p3
  rw [List.append_nil] at h2
  rw [h2, setGo_nil]

theorem scan_v3s_ok_nil {vs : List V3Lit} {ws : List Vector3}
    (h : decodeV3s vs = .ok ws) (all : List String) (key : String) (u2 : Bool)
    (d : Dictionary) (p2 : List Vector2) (p3 : List Vector3) :
    setGo all key u2 true ((vs.map V3Lit.toks).flatten) d p2 p3 = .ok (d, p2, p3 ++ ws) := by
  have h2 := scan_v3s_ok h all key u2 [] d p2 p3
  rw [List.append_nil] at h2
  rw [h2, setGo_nil]


/-! Error classification: every parse failure in the decoder is the
`MalformedLiteralError` panic. -/

theorem parseTok_err_malformed {s : String} {e : DErr} (h : parseTok s = .error e) :
    e = .malformedLiteral := by
  unfold parseTok at h
  cases hr : rustParseF32 (trimChars s.data) with
  | none => rw [hr] at h; injection h with h2; exact h2.symm
  | some w => rw [hr] at h; cases h

theorem rustParse_of_parseTok_ok {s : String} {v : F32} (h : parseTok s = .ok v) :
    rustParseF32 (trimChars s.data) = some v := by
  unfold parseTok at h
  cases hr : rustParseF32 (trimChars s.data) with
  | none => rw [hr] at h; cases h
  | some w => rw [hr] at h; injection h with h2; rw [h2]

theorem encode_v2_err_malformed {x y : String} {e : DErr}
    (h : encode_vector2 x y = .error e) : e = .malformedLiteral := by
  unfold encode_vector2 at h
  cases hx : parseTok x with
  | error e2 =>
    rw [hx] at h
    simp only [Bind.bind, Except.bind] at h
    injection h with h2
    rw [← h2]
    exact parseTok_err_malformed hx
  | ok vx =>
    rw [hx] at h
    simp only [Bind.bind, Except.bind] at h
    cases hy : parseTok y with
    | error e2 =>
      rw [hy] at h
      injection h with h2
      rw [← h2]
      exact parseTok_err_malformed hy
    | ok vy => rw [hy] at h; cases h

theorem encode_v3_err_malformed {x y z : String} {e : DErr}
    (h : encode_vector3 x y z = .error e) : e = .malformedLiteral := by
  unfold encode_vector3 at h
  cases hx : parseTok x with
  | error e2 =>
    rw [hx] at h
    simp only [Bind.bind, Except.bind] at h
    injection h with h2
    rw [← h2]
    exact parseTok_err_malformed hx
  | ok vx =>
    rw [hx] at h
    simp only [Bind.bind, Except.bind] at h
    cases hy : parseTok y with
    | error e2 =>
      rw [hy] at h
      injection h with h2
      rw [← h2]
      exact parseTok_err_malformed hy
    | ok vy =>
      rw [hy] at h
      cases hz : parseTok z with
      | error e2 =>
        rw [hz] at h
        injection h with h2
        rw [← h2]
        exact parseTok_err_malformed hz
      | ok vz => rw [hz] at h; cases h

theorem encode_color_err_malformed {r g b : String} {a : Option String} {e : DErr}
    (h : encode_color r g b a = .error e) : e = .malformedLiteral := by
  unfold encode_color at h
  cases hr : parseTok r with
  | error e2 =>
    rw [hr] at h
    simp only [Bind.bind, Except.bind] at h
    injection h with h2
    rw [← h2]
    exact parseTok_err_malformed hr
  | ok vr =>
    rw [hr] at h
    simp only [Bind.bind, Except.bind] at h
    cases hg : parseTok g with
    | error e2 =>
      rw [hg] at h
      injection h with h2
      rw [← h2]
      exact parseTok_err_malformed hg
    | ok vg =>
      rw [hg] at h
      cases hb : parseTok b with
      | error e2 =>
        rw [hb] at h
        injection h with h2
        rw [← h2]
        exact parseTok_err_malformed hb
      | ok vb =>
        rw [hb] at h
        cases a with
        | none => cases h
        | some s =>
          simp only [Bind.bind, Except.bind] at h
          cases hs : parseTok s with
          | error e2 =>
            rw [hs] at h
            injection h with h2
            rw [← h2]
            exact parseTok_err_malformed hs
          | ok vs => rw [hs] at h; cases h

theorem encode_plane_err_malformed {n : Vector3} {dTok : String} {e : DErr}
    (h : encode_plane n dTok = .error e) : e = .malformedLiteral := by
  unfold encode_plane at h
  cases hd : parseTok dTok with
  | error e2 =>
    rw [hd] at h
    simp only [Bind.bind, Except.bind] at h
    injection h with h2
    rw [← h2]
    exact parseTok_err_malformed hd
  | ok vd => rw [hd] at h; cases h

theorem decodeV2s_err_malformed {vs : List V2Lit} {e : DErr}
    (h : decodeV2s vs = .error e) : e = .malformedLiteral := by
  induction vs generalizing e with
  | nil => rw [decodeV2s] at h; cases h
  | cons v rest ih =>
    rw [decodeV2s] at h
    cases hv : encode_vector2 v.x v.y with
    | error e2 =>
      rw [hv] at h
      injection h with h2
      rw [← h2]
      exact encode_v2_err_malformed hv
    | ok w =>
      rw [hv] at h
      cases hrest : decodeV2s rest with
      | error e2 =>
        rw [hrest] at h
        injection h with h2
        rw [← h2]
        exact ih hrest
      | ok ws => rw [hrest] at h; cases h

theorem decodeV3s_err_malformed {vs : List V3Lit} {e : DErr}
    (h : decodeV3s vs = .error e) : e = .malformedLiteral := by
  induction vs generalizing e with
  | nil => rw [decodeV3s] at h; cases h
  | cons v rest ih =>
    rw [decodeV3s] at h
    cases hv : encode_vector3 v.x v.y v.z with
    | error e2 =>
      rw [hv] at h
      injection h with h2
      rw [← h2]
      exact encode_v3_err_malformed hv
    | ok w =>
      rw [hv] at h
      cases hrest : decodeV3s rest with
      | error e2 =>
        rw [hrest] at h
        injection h with h2
        rw [← h2]
        exact ih hrest
      | ok ws => rw [hrest] at h; cases h

theorem decodeV2s_ok_parses {vs : List V2Lit} {ws : List Vector2}
    (h : decodeV2s vs = .ok ws) :
    ∀ v ∈ vs, (∃ w, parseTok v.x = .ok w) ∧ ∃ w, parseTok v.y = .ok w := by
  induction vs generalizing ws with
  | nil => intro v hv; cases hv
  | cons v2 rest ih =>
    intro v hv
    rw [decodeV2s] at h
    cases hv2 : encode_vector2 v2.x v2.y with
    | error e2 => rw [hv2] at h; cases h
    | ok w =>
      rw [hv2] at h
      cases hrest : decodeV2s rest with
      | error e2 => rw [hrest] at h; cases h
      | ok ws2 =>
        rcases List.mem_cons.mp hv with h1 | h1
        · subst h1
          obtain ⟨vx, vy, hx, hy, _⟩ := encode_v2_parts hv2
          exact ⟨⟨vx, hx⟩, vy, hy⟩
        · exact ih hrest v h1

theorem decodeV3s_ok_parses {vs : List V3Lit} {ws : List Vector3}
    (h : decodeV3s vs = .ok ws) :
    ∀ v ∈ vs, (∃ w, parseTok v.x = .ok w) ∧ (∃ w, parseTok v.y = .ok w) ∧
      ∃ w, parseTok v.z = .ok w := by
  induction vs generalizing ws with
  | nil => intro v hv; cases hv
  | cons v3 rest ih =>
    intro v hv
    rw [decodeV3s] at h
    cases hv3 : encode_vector3 v3.x v3.y v3.z with
    | error e2 => rw [hv3] at h; cases h
    | ok w =>
      rw [hv3] at h
      cases hrest : decodeV3s rest with
      | error e2 => rw [hrest] at h; cases h
      | ok ws2 =>
        rcases List.mem_cons.mp hv with h1 | h1
        · subst h1
          obtain ⟨vx, vy, vz, hx, hy, hz, _⟩ := encode_v3_parts hv3
          exact ⟨⟨vx, hx⟩, ⟨vy, hy⟩, vz, hz⟩
        · exact ih hrest v h1

theorem scan_v2s_err_nil {vs : List V2Lit} {e : DErr} (h : decodeV2s vs = .error e)
    (all : List String) (key : String) (u3 : Bool) (d : Dictionary)
    (p2 : List Vector2) (p3 : List Vector3) :
    setGo all key true u3 ((vs.map V2Lit.toks).flatten) d p2 p3 = .error e := by
  have h2 := scan_v2s_err h all key u3 [] d p2 p3
  rw [List.append_nil] at h2
  exact h2

theorem scan_v3s_err_nil {vs : List V3Lit} {e : DErr} (h : decodeV3s vs = .error e)
    (all : List String) (key : String) (u2 : Bool) (d : Dictionary)
    (p2 : List Vector2) (p3 : List Vector3) :
    setGo all key u2 true ((vs.map V3Lit.toks).flatten) d p2 p3 = .error e := by
  have h2 := scan_v3s_err h all key u2 [] d p2 p3
  rw [List.append_nil] at h2
  exact h2

theorem parse_contra {t : String}
    (hnone : rustParseF32 (trimChars t.data) = none) {w : F32}
    (h : parseTok t = .ok w) : False := by
  rw [rustParse_of_parseTok_ok h] at hnone
  cases hnone


theorem dictSet_append {d : Dictionary} {kk : String} {v : GVariant}
    (h : d.any (fun p => p.1 = kk) = false) : dictSet d kk v = d ++ [(kk, v)] := by
  rw [dictSet, if_neg]
  simp [h]

theorem popAux : ∀ (n : ℕ) (es : List (String × TomlValue)) (d : Dictionary),
    sizeOf es < n → plainEntries es = true → nodupEntries es →
    (es.map Prod.fst).Nodup →
    (∀ kk ∈ es.map Prod.fst, d.any (fun p => p.1 = kk) = false) →
    populate_toml_dictionary d es = .ok (d ++ mirrorEntries es) := by
  intro n
  induction n with
  | zero => intro es d hsz; omega
  | succ n ih =>
    intro es d hsz hplain hnodup hkeys hfresh
    cases es with
    | nil =>
      rw [populate_toml_dictionary, mirrorEntries]
      simp
    | cons p rest =>
      obtain ⟨kk, v⟩ := p
      rw [plainEntries] at hplain
      simp only [Bool.and_eq_true] at hplain
      obtain ⟨hpv, hprest⟩ := hplain
      rw [nodupEntries] at hnodup
      obtain ⟨hnv, hnrest⟩ := hnodup
      rw [List.map_cons, List.nodup_cons] at hkeys
      obtain ⟨hknot, hkrest⟩ := hkeys
      have hfhead : d.any (fun q => q.1 = kk) = false := hfresh kk (by simp)
      have hval : populateValue d kk v = .ok (d ++ [(kk, mirrorVal v)]) := by
        cases v with
        | table es2 =>
          rw [plainDoc] at hpv
          rw [nodupDoc] at hnv
          have hsz2 : sizeOf es2 < n := by
            have := hsz
            simp only [List.cons.sizeOf_spec, Prod.mk.sizeOf_spec,
              TomlValue.table.sizeOf_spec] at this
            omega
          have hsub := ih es2 [] hsz2 hpv hnv.2 hnv.1 (by intro u hu; rfl)
          rw [populateValue, hsub]
          simp only [List.nil_append]
          rw [dictSet_append hfhead, mirrorVal]
        | int m => rw [populateValue, dictSet_append hfhead, mirrorVal]
        | float q => rw [populateValue, dictSet_append hfhead, mirrorVal]
        | bool b => rw [populateValue, dictSet_append hfhead, mirrorVal]
        | datetime s => rw [populateValue, dictSet_append hfhead, mirrorVal]
        | str s => rw [plainDoc] at hpv; cases hpv
        | arr xs => rw [plainDoc] at hpv; cases hpv
      have hszrest : sizeOf rest < n := by
        have := hsz
        simp only [List.cons.sizeOf_spec] at this
        omega
      have hfreshrest : ∀ u ∈ rest.map Prod.fst,
          (d ++ [(kk, mirrorVal v)]).any (fun q => q.1 = u) = false := by
        intro u hu
        rw [List.any_append]
        have h1 := hfresh u (by simp [hu])
        have h2 : u ≠ kk := fun he => hknot (he ▸ hu)
        have h3 : kk ≠ u := fun he => h2 he.symm
        simp [h1, h3]
      have hrest := ih rest (d ++ [(kk, mirrorVal v)]) hszrest hprest hnrest
        hkrest hfreshrest
      rw [populate_toml_dictionary, hval]
      simp only [hrest, mirrorEntries]
      simp

/-! The claims. -/

/-- Claim C8 counterexample: in `Plane(Vector3(1, 2, 3), Basis)` the
distance-position token `Basis` does not parse as a float, yet the decoder
fails with an index panic (it treats the token as a `Basis` tag, recurses on
an empty token list and reads the empty pool), not with the
`MalformedLiteralError` the claim requires. -/
theorem C8_counterexample :
    rustParseF32 (trimChars "Basis".data) = none ∧
      (Lit.plane ⟨"1", "2", "3"⟩ "Basis").numArgs = ["1", "2", "3", "Basis"] ∧
      (Lit.plane ⟨"1", "2", "3"⟩ "Basis").toks =
        ["Plane", "Vector3", "1", "2", "3", "Basis"] ∧
      set_godot_type_to_dictionary (Lit.plane ⟨"1", "2", "3"⟩ "Basis").toks "k" [] =
        .error .indexError ∧
      DErr.indexError ≠ DErr.malformedLiteral :=
  ⟨by decide, rfl, rfl, rfl, by decide⟩

/-- Claim C8 (amended: additionally, in the `Plane` shape the distance token
is not itself one of the eight type tags — a tag-named token in that one
position is scanned as a tag and triggers an index panic instead of the
parse failure; every other numeric position is read and parsed by its
enclosing branch before the scan reaches it): for every recognized
structured-type literal shape in which a numeric-position token does not
parse as a float after trimming, decoding fails with
`MalformedLiteralError`; the decoder aborts without returning a dictionary,
so no leaf is inserted under the key. -/
theorem C8_malformed_numeric_fails (L : Lit) (k : String) (d : Dictionary)
    (hno : ∀ n dTok, L = .plane n dTok → dTok ∉ godot_types)
    (hbad : ∃ t ∈ L.numArgs, rustParseF32 (trimChars t.data) = none) :
    set_godot_type_to_dictionary L.toks k d = .error .malformedLiteral := by
  obtain ⟨t, ht, hnone⟩ := hbad
  cases L with
  | v2 a =>
    simp only [Lit.numArgs, List.mem_cons, List.not_mem_nil, or_false] at ht
    simp only [Lit.toks, V2Lit.toks]
    rw [set_godot_type_to_dictionary]
    cases henc : encode_vector2 a.x a.y with
    | error e =>
      rw [setGo_v2, henc, encode_v2_err_malformed henc]
    | ok w =>
      obtain ⟨vx, vy, hx, hy, _⟩ := encode_v2_parts henc
      rcases ht with h1 | h1 <;> subst h1
      · exact absurd (parse_contra hnone hx) (by simp)
      · exact absurd (parse_contra hnone hy) (by simp)
  | v3 a =>
    simp only [Lit.numArgs, List.mem_cons, List.not_mem_nil, or_false] at ht
    simp only [Lit.toks, V3Lit.toks]
    rw [set_godot_type_to_dictionary]
    cases henc : encode_vector3 a.x a.y a.z with
    | error e =>
      rw [setGo_v3, henc, encode_v3_err_malformed henc]
    | ok w =>
      obtain ⟨vx, vy, vz, hx, hy, hz, _⟩ := encode_v3_parts henc
      rcases ht with h1 | h1 | h1 <;> subst h1
      · exact absurd (parse_contra hnone hx) (by simp)
      · exact absurd (parse_contra hnone hy) (by simp)
      · exact absurd (parse_contra hnone hz) (by simp)
  | color3 r g b =>
    simp only [Lit.numArgs, List.mem_cons, List.not_mem_nil, or_false] at ht
    simp only [Lit.toks]
    rw [set_godot_type_to_dictionary]
    have hlen : (["Color", r, g, b] : List String).length ≠ 5 := by simp
    cases henc : encode_color r g b none with
    | error e =>
      rw [setGo_color_not5 hlen, henc, encode_color_err_malformed henc]
    | ok c =>
      unfold encode_color at henc
      cases hr : parseTok r with
      | error e2 => rw [hr] at henc; simp [Bind.bind, Except.bind] at henc
      | ok vr =>
        rw [hr] at henc
        simp only [Bind.bind, Except.bind] at henc
        cases hg : parseTok g with
        | error e2 => rw [hg] at henc; cases henc
        | ok vg =>
          rw [hg] at henc
          cases hb : parseTok b with
          | error e2 => rw [hb] at henc; cases henc
          | ok vb =>
            rcases ht with h1 | h1 | h1 <;> subst h1
            · exact absurd (parse_contra hnone hr) (by simp)
            · exact absurd (parse_contra hnone hg) (by simp)
            · exact absurd (parse_contra hnone hb) (by simp)
  | color4 r g b a =>
    simp only [Lit.numArgs, List.mem_cons, List.not_mem_nil, or_false] at ht
    simp only [Lit.toks]
    rw [set_godot_type_to_dictionary]
    have hlen : (["Color", r, g, b, a] : List String).length = 5 := rfl
    cases henc : encode_color r g b (some a) with
    | error e =>
      rw [setGo_color5 hlen, henc, encode_color_err_malformed henc]
    | ok c =>
      unfold encode_color at henc
      cases hr : parseTok r with
      | error e2 => rw [hr] at henc; simp [Bind.bind, Except.bind] at henc
      | ok vr =>
        rw [hr] at henc
        simp only [Bind.bind, Except.bind] at henc
        cases hg : parseTok g with
        | error e2 => rw [hg] at henc; cases henc
        | ok vg =>
          rw [hg] at henc
          cases hb : parseTok b with
          | error e2 => rw [hb] at henc; cases henc
          | ok vb =>
            rw [hb] at henc
            simp only [Bind.bind, Except.bind] at henc
            cases ha : parseTok a with
            | error e2 => rw [ha] at henc; cases henc
            | ok va =>
              rcases ht with h1 | h1 | h1 | h1 <;> subst h1
              · exact absurd (parse_contra hnone hr) (by simp)
              · exact absurd (parse_contra hnone hg) (by simp)
              · exact absurd (parse_contra hnone hb) (by simp)
              · exact absurd (parse_contra hnone ha) (by simp)
  | rect2 p s2 =>
    simp only [Lit.numArgs, List.mem_cons, List.not_mem_nil, or_false] at ht
    simp only [Lit.toks]
    rw [set_godot_type_to_dictionary, setGo_rect2]
    cases hdec : decodeV2s [p, s2] with
    | error e =>
      rw [scan_v2s_err_nil hdec .., decodeV2s_err_malformed hdec]
    | ok ws =>
      have hall := decodeV2s_ok_parses hdec
      obtain ⟨⟨wpx, hpx⟩, wpy, hpy⟩ := hall p (by simp)
      obtain ⟨⟨wsx, hsx⟩, wsy, hsy⟩ := hall s2 (by simp)
      rcases ht with h1 | h1 | h1 | h1 <;> subst h1
      · exact absurd (parse_contra hnone hpx) (by simp)
      · exact absurd (parse_contra hnone hpy) (by simp)
      · exact absurd (parse_contra hnone hsx) (by simp)
      · exact absurd (parse_contra hnone hsy) (by simp)
  | plane n dTok =>
    simp only [Lit.numArgs, List.mem_cons, List.not_mem_nil, or_false] at ht
    have hdno : dTok ∉ godot_types := hno n dTok rfl
    simp only [Lit.toks]
    rw [set_godot_type_to_dictionary, setGo_plane]
    cases hdec : decodeV3s [n] with
    | error e =>
      rw [scan_v3s_err hdec .., decodeV3s_err_malformed hdec]
    | ok ws =>
      have hall := decodeV3s_ok_parses hdec
      obtain ⟨⟨wx, hx⟩, ⟨wy, hy⟩, wz, hz⟩ := hall n (by simp)
      obtain ⟨wn, hws⟩ : ∃ wn, ws = [wn] := by
        rw [decodeV3s, encode_vector3_eq hx hy hz, decodeV3s] at hdec
        exact ⟨_, by injection hdec with h2; rw [← h2]⟩
      subst hws
      rw [scan_v3s_ok hdec ..,
        setGo_skipAll (by
          intro u hu
          simp only [List.mem_cons, List.not_mem_nil, or_false] at hu
          subst hu
          exact hdno) ..]
      have hlast : readTok
          ("Plane" :: ((([n] : List V3Lit).map V3Lit.toks).flatten ++ [dTok]))
          (("Plane" :: ((([n] : List V3Lit).map V3Lit.toks).flatten ++ [dTok])).length - 1) =
          .ok dTok := by
        rw [← List.cons_append]
        exact readTok_last _ dTok
      simp only [List.nil_append, readPool, List.get?, hlast]
      cases hd : parseTok dTok with
      | error e =>
        have hp : encode_plane wn dTok = .error .malformedLiteral := by
          unfold encode_plane
          rw [hd, parseTok_err_malformed hd]
          rfl
        rw [hp]
      | ok vd =>
        rcases ht with h1 | h1 | h1 | h1 <;> subst h1
        · exact absurd (parse_contra hnone hx) (by simp)
        · exact absurd (parse_contra hnone hy) (by simp)
        · exact absurd (parse_contra hnone hz) (by simp)
        · exact absurd (parse_contra hnone hd) (by simp)
  | t2d a b c =>
    simp only [Lit.numArgs, List.mem_cons, List.not_mem_nil, or_false] at ht
    simp only [Lit.toks]
    rw [set_godot_type_to_dictionary, setGo_t2d]
    cases hdec : decodeV2s [a, b, c] with
    | error e =>
      rw [scan_v2s_err_nil hdec .., decodeV2s_err_malformed hdec]
    | ok ws =>
      have hall := decodeV2s_ok_parses hdec
      obtain ⟨⟨wax, hax⟩, way, hay⟩ := hall a (by simp)
      obtain ⟨⟨wbx, hbx⟩, wby, hby⟩ := hall b (by simp)
      obtain ⟨⟨wcx, hcx⟩, wcy, hcy⟩ := hall c (by simp)
      rcases ht with h1 | h1 | h1 | h1 | h1 | h1 <;> subst h1
      · exact absurd (parse_contra hnone hax) (by simp)
      · exact absurd (parse_contra hnone hay) (by simp)
      · exact absurd (parse_contra hnone hbx) (by simp)
      · exact absurd (parse_contra hnone hby) (by simp)
      · exact absurd (parse_contra hnone hcx) (by simp)
      · exact absurd (parse_contra hnone hcy) (by simp)
  | basis a b c =>
    simp only [Lit.numArgs, List.mem_cons, List.not_mem_nil, or_false] at ht
    simp only [Lit.toks]
    rw [set_godot_type_to_dictionary, setGo_basis]
    cases hdec : decodeV3s [a, b, c] with
    | error e =>
      rw [scan_v3s_err_nil hdec .., decodeV3s_err_malformed hdec]
    | ok ws =>
      have hall := decodeV3s_ok_parses hdec
      obtain ⟨⟨wax, hax⟩, ⟨way, hay⟩, waz, haz⟩ := hall a (by simp)
      obtain ⟨⟨wbx, hbx⟩, ⟨wby, hby⟩, wbz, hbz⟩ := hall b (by simp)
      obtain ⟨⟨wcx, hcx⟩, ⟨wcy, hcy⟩, wcz, hcz⟩ := hall c (by simp)
      rcases ht with h1 | h1 | h1 | h1 | h1 | h1 | h1 | h1 | h1 <;> subst h1
      · exact absurd (parse_contra hnone hax) (by simp)
      · exact absurd (parse_contra hnone hay) (by simp)
      · exact absurd (parse_contra hnone haz) (by simp)
      · exact absurd (parse_contra hnone hbx) (by simp)
      · exact absurd (parse_contra hnone hby) (by simp)
      · exact absurd (parse_contra hnone hbz) (by simp)
      · exact absurd (parse_contra hnone hcx) (by simp)
      · exact absurd (parse_contra hnone hcy) (by simp)
      · exact absurd (parse_contra hnone hcz) (by simp)
  | transform a b c e =>
    simp only [Lit.numArgs, List.mem_cons, List.not_mem_nil, or_false] at ht
    simp only [Lit.toks]
    rw [set_godot_type_to_dictionary, setGo_trans]
    cases hdec : decodeV3s [a, b, c, e] with
    | error e2 =>
      rw [scan_v3s_err_nil hdec .., decodeV3s_err_malformed hdec]
    | ok ws =>
      have hall := decodeV3s_ok_parses hdec
      obtain ⟨⟨wax, hax⟩, ⟨way, hay⟩, waz, haz⟩ := hall a (by simp)
      obtain ⟨⟨wbx, hbx⟩, ⟨wby, hby⟩, wbz, hbz⟩ := hall b (by simp)
      obtain ⟨⟨wcx, hcx⟩, ⟨wcy, hcy⟩, wcz, hcz⟩ := hall c (by simp)
      obtain ⟨⟨wex, hex⟩, ⟨wey, hey⟩, wez, hez⟩ := hall e (by simp)
      rcases ht with h1 | h1 | h1 | h1 | h1 | h1 | h1 | h1 | h1 | h1 | h1 | h1 <;> subst h1
      · exact absurd (parse_contra hnone hax) (by simp)
      · exact absurd (parse_contra hnone hay) (by simp)
      · exact absurd (parse_contra hnone haz) (by simp)
      · exact absurd (parse_contra hnone hbx) (by simp)
      · exact absurd (parse_contra hnone hby) (by simp)
      · exact absurd (parse_contra hnone hbz) (by simp)
      · exact absurd (parse_contra hnone hcx) (by simp)
      · exact absurd (parse_contra hnone hcy) (by simp)
      · exact absurd (parse_contra hnone hcz) (by simp)
      · exact absurd (parse_contra hnone hex) (by simp)
      · exact absurd (parse_contra hnone hey) (by simp)
      · exact absurd (parse_contra hnone hez) (by simp)

/-- Witness for the amended C8 at the spec's example `Vector2(abc, 2.0)`
and at `Vector2(Basis, 2.0)`, whose tag-named numeric token is read and
rejected by the `Vector2` branch before the scan could reach it. -/
theorem C8_witness :
    (∃ t ∈ (Lit.v2 ⟨"abc", "2.0"⟩).numArgs,
        rustParseF32 (trimChars t.data) = none) ∧
      set_godot_type_to_dictionary (Lit.v2 ⟨"abc", "2.0"⟩).toks "k" [] =
        .error .malformedLiteral ∧
      "Basis" ∈ godot_types ∧
      set_godot_type_to_dictionary (Lit.v2 ⟨"Basis", "2.0"⟩).toks "k" [] =
        .error .malformedLiteral :=
  ⟨⟨"abc", by decide, by decide⟩,
    C8_malformed_numeric_fails (Lit.v2 ⟨"abc", "2.0"⟩) "k" []
      (fun n dTok h => Lit.noConfusion h) ⟨"abc", by decide, by decide⟩,
    by decide,
    C8_malformed_numeric_fails (Lit.v2 ⟨"Basis", "2.0"⟩) "k" []
      (fun n dTok h => Lit.noConfusion h) ⟨"Basis", by decide, by decide⟩⟩


/-- Claim C2 counterexample: in `Color(0, 0, 0, -1)` the alpha argument's
minus sign is dropped by the tokenizer (the token list is still 5 long), so
the decoded alpha is `1`, not the parsed fourth argument `-1`. -/
theorem C2_counterexample :
    grammarNumber? "-1" = some (-1) ∧
      tokenize "Color(0, 0, 0, -1)" = ["Color", "0", "0", "0", "1"] ∧
      encode_godot_types [] "k" "Color(0, 0, 0, -1)" =
        .ok [("k", GVariant.color ⟨.finite 0, .finite 0, .finite 0, .finite 1⟩)] ∧
      F32.finite 1 ≠ F32.finite (-1) :=
  ⟨by decide, rfl, rfl, by decide⟩

/-- Claim C2 (amended: the alpha argument carries no leading minus, since
the tokenizer drops a `-` and a negative alpha would decode to its absolute
value; the red, green and blue arguments are arbitrary grammar numbers, sign
included): `Color(r,g,b)` decodes with alpha exactly 1.0; `Color(r,g,b,a)`
with unsigned `a` (token list length exactly 5) decodes with alpha equal to
the parsed fourth argument; with a fifth argument the token list length is
6, so no alpha token is consumed and alpha falls back to 1.0. -/
theorem C2_color_alpha_rule :
    (∀ (d : Dictionary) (k r g b : String) (qr qg qb : ℚ),
      gnumVal? r = some qr → gnumVal? g = some qg → gnumVal? b = some qb →
      encode_godot_types d k ("Color(" ++ r ++ ", " ++ g ++ ", " ++ b ++ ")") =
        .ok (dictSet d k (.color ⟨.finite qr, .finite qg, .finite qb, .finite 1⟩))) ∧
    (∀ (d : Dictionary) (k r g b a : String) (qr qg qb qa : ℚ),
      gnumVal? r = some qr → gnumVal? g = some qg → gnumVal? b = some qb →
      unsignedNumber? a.data = some qa →
      encode_godot_types d k
          ("Color(" ++ r ++ ", " ++ g ++ ", " ++ b ++ ", " ++ a ++ ")") =
        .ok (dictSet d k (.color ⟨.finite qr, .finite qg, .finite qb, .finite qa⟩))) ∧
    (∀ (d : Dictionary) (k r g b a e2 : String) (qr qg qb qa qe : ℚ),
      gnumVal? r = some qr → gnumVal? g = some qg → gnumVal? b = some qb →
      gnumVal? a = some qa → gnumVal? e2 = some qe →
      encode_godot_types d k
          ("Color(" ++ r ++ ", " ++ g ++ ", " ++ b ++ ", " ++ a ++ ", " ++ e2 ++ ")") =
        .ok (dictSet d k (.color ⟨.finite qr, .finite qg, .finite qb, .finite 1⟩))) := by
  refine ⟨?_, ?_, ?_⟩
  · intro d k r g b qr qg qb hr hg hb
    have htok := tok_color3_template hr hg hb
    rw [gnumVal?] at hr hg hb
    have hpr : parseTok (String.mk (gnumCore r)) = .ok (.finite qr) :=
      parseTok_of_unsigned hr
    have hpg : parseTok (String.mk (gnumCore g)) = .ok (.finite qg) :=
      parseTok_of_unsigned hg
    have hpb : parseTok (String.mk (gnumCore b)) = .ok (.finite qb) :=
      parseTok_of_unsigned hb
    have henc := encode_color_none_eq hpr hpg hpb
    have hlen : (["Color", String.mk (gnumCore r), String.mk (gnumCore g),
        String.mk (gnumCore b)] : List String).length ≠ 5 := by simp
    have hset : set_godot_type_to_dictionary
        ["Color", String.mk (gnumCore r), String.mk (gnumCore g),
          String.mk (gnumCore b)] k d =
        .ok (dictSet d k (.color ⟨.finite qr, .finite qg, .finite qb, .finite 1⟩),
          [], []) := by
      rw [set_godot_type_to_dictionary, setGo_color_not5 hlen, henc]
    exact encode_known_tag_ok htok (by decide) hset
  · intro d k r g b a qr qg qb qa hr hg hb ha
    have hga : gnumVal? a = some qa := by
      rw [gnumVal?, gnumCore_unsigned ha]; exact ha
    have htok := tok_color4_template hr hg hb hga
    rw [gnumVal?] at hr hg hb hga
    have hpr : parseTok (String.mk (gnumCore r)) = .ok (.finite qr) :=
      parseTok_of_unsigned hr
    have hpg : parseTok (String.mk (gnumCore g)) = .ok (.finite qg) :=
      parseTok_of_unsigned hg
    have hpb : parseTok (String.mk (gnumCore b)) = .ok (.finite qb) :=
      parseTok_of_unsigned hb
    have hpa : parseTok (String.mk (gnumCore a)) = .ok (.finite qa) :=
      parseTok_of_unsigned hga
    have henc := encode_color_some_eq hpr hpg hpb hpa
    have hlen : (["Color", String.mk (gnumCore r), String.mk (gnumCore g),
        String.mk (gnumCore b), String.mk (gnumCore a)] : List String).length = 5 := rfl
    have hset : set_godot_type_to_dictionary
        ["Color", String.mk (gnumCore r), String.mk (gnumCore g),
          String.mk (gnumCore b), String.mk (gnumCore a)] k d =
        .ok (dictSet d k (.color ⟨.finite qr, .finite qg, .finite qb, .finite qa⟩),
          [], []) := by
      rw [set_godot_type_to_dictionary, setGo_color5 hlen, henc]
    exact encode_known_tag_ok htok (by decide) hset
  · intro d k r g b a e2 qr qg qb qa qe hr hg hb ha he
    have htok := tok_color5_template hr hg hb ha he
    rw [gnumVal?] at hr hg hb ha he
    have hpr : parseTok (String.mk (gnumCore r)) = .ok (.finite qr) :=
      parseTok_of_unsigned hr
    have hpg : parseTok (String.mk (gnumCore g)) = .ok (.finite qg) :=
      parseTok_of_unsigned hg
    have hpb : parseTok (String.mk (gnumCore b)) = .ok (.finite qb) :=
      parseTok_of_unsigned hb
    have henc := encode_color_none_eq hpr hpg hpb
    have hlen : (["Color", String.mk (gnumCore r), String.mk (gnumCore g),
        String.mk (gnumCore b), String.mk (gnumCore a),
        String.mk (gnumCore e2)] : List String).length ≠ 5 := by simp
    have hset : set_godot_type_to_dictionary
        ["Color", String.mk (gnumCore r), String.mk (gnumCore g),
          String.mk (gnumCore b), String.mk (gnumCore a),
          String.mk (gnumCore e2)] k d =
        .ok (dictSet d k (.color ⟨.finite qr, .finite qg, .finite qb, .finite 1⟩),
          [], []) := by
      rw [set_godot_type_to_dictionary, setGo_color_not5 hlen, henc]
    exact encode_known_tag_ok htok (by decide) hset

/-- Witness for the amended C2 at concrete literals with a signed red
argument (and, in the length-6 case, a signed fifth argument). -/
theorem C2_witness :
    gnumVal? "-1" = some 1 ∧ unsignedNumber? "7".data = some 7 ∧
      encode_godot_types [] "k" "Color(-1, 2, 3)" =
        .ok (dictSet [] "k" (.color ⟨.finite 1, .finite 2, .finite 3, .finite 1⟩)) ∧
      encode_godot_types [] "k" "Color(-1, 2, 3, 7)" =
        .ok (dictSet [] "k" (.color ⟨.finite 1, .finite 2, .finite 3, .finite 7⟩)) ∧
      encode_godot_types [] "k" "Color(-1, 2, 3, 7, -9)" =
        .ok (dictSet [] "k" (.color ⟨.finite 1, .finite 2, .finite 3, .finite 1⟩)) :=
  ⟨by decide, by decide,
    C2_color_alpha_rule.1 [] "k" "-1" "2" "3" 1 2 3 (by decide) (by decide) (by decide),
    C2_color_alpha_rule.2.1 [] "k" "-1" "2" "3" "7" 1 2 3 7 (by decide) (by decide)
      (by decide) (by decide),
    C2_color_alpha_rule.2.2 [] "k" "-1" "2" "3" "7" "-9" 1 2 3 7 9 (by decide) (by decide)
      (by decide) (by decide) (by decide)⟩

/-- Claim C6: decoding a valid `Plane(Vector3(x, y, z), d)` literal yields a
plane whose normal is the Vector3D produced by the recursive sub-decode of
the nested `Vector3` literal and whose distance is the parsed value of the
last token of the original token list. -/
theorem C6_plane_literal (d : Dictionary) (k : String) {x y z w : String}
    {qx qy qz qw : ℚ} (hx : gnumVal? x = some qx) (hy : gnumVal? y = some qy)
    (hz : gnumVal? z = some qz) (hw : gnumVal? w = some qw) :
    encode_godot_types d k
        ("Plane(Vector3(" ++ x ++ ", " ++ y ++ ", " ++ z ++ "), " ++ w ++ ")") =
      .ok (dictSet d k
        (.plane ⟨⟨.finite qx, .finite qy, .finite qz⟩, .finite qw⟩)) := by
  have htok := tok_plane_template hx hy hz hw
  rw [gnumVal?] at hx hy hz hw
  have hpx : parseTok (String.mk (gnumCore x)) = .ok (.finite qx) :=
    parseTok_of_unsigned hx
  have hpy : parseTok (String.mk (gnumCore y)) = .ok (.finite qy) :=
    parseTok_of_unsigned hy
  have hpz : parseTok (String.mk (gnumCore z)) = .ok (.finite qz) :=
    parseTok_of_unsigned hz
  have hpw : parseTok (String.mk (gnumCore w)) = .ok (.finite qw) :=
    parseTok_of_unsigned hw
  have henc3 := encode_vector3_eq hpx hpy hpz
  have hskip : ∀ t ∈ [String.mk (gnumCore x), String.mk (gnumCore y),
      String.mk (gnumCore z), String.mk (gnumCore w)], t ∉ godot_types := by
    intro t ht
    simp only [List.mem_cons, List.not_mem_nil, or_false] at ht
    rcases ht with h1 | h1 | h1 | h1 <;> subst h1
    · exact parseTok_not_tag hpx
    · exact parseTok_not_tag hpy
    · exact parseTok_not_tag hpz
    · exact parseTok_not_tag hpw
  have hnested : setGo
      ["Vector3", String.mk (gnumCore x), String.mk (gnumCore y),
        String.mk (gnumCore z), String.mk (gnumCore w)] k false true
      ["Vector3", String.mk (gnumCore x), String.mk (gnumCore y),
        String.mk (gnumCore z), String.mk (gnumCore w)] d [] [] =
      .ok (d, [], [⟨.finite qx, .finite qy, .finite qz⟩]) := by
    rw [setGo_v3, henc3]
    simp only [if_true]
    rw [setGo_skipAll hskip]
    simp
  have hset : set_godot_type_to_dictionary
      ["Plane", "Vector3", String.mk (gnumCore x), String.mk (gnumCore y),
        String.mk (gnumCore z), String.mk (gnumCore w)] k d =
      .ok (dictSet d k
        (.plane ⟨⟨.finite qx, .finite qy, .finite qz⟩, .finite qw⟩), [], []) := by
    rw [set_godot_type_to_dictionary, setGo_plane, hnested]
    simp only [readPool, readTok, List.get?, List.length]
    rw [encode_plane_eq hpw]
  exact encode_known_tag_ok htok (by decide) hset

/-- Witness for C6 at a concrete literal with a negative distance. -/
theorem C6_witness :
    gnumVal? "1" = some 1 ∧ gnumVal? "2" = some 2 ∧ gnumVal? "3" = some 3 ∧
      gnumVal? "-4" = some 4 ∧
      encode_godot_types [] "k" "Plane(Vector3(1, 2, 3), -4)" =
        .ok (dictSet [] "k"
          (.plane ⟨⟨.finite 1, .finite 2, .finite 3⟩, .finite 4⟩)) :=
  ⟨by decide, by decide, by decide, by decide,
    @C6_plane_literal [] "k" "1" "2" "3" "-4" 1 2 3 4 (by decide) (by decide)
      (by decide) (by decide)⟩

/-- Claim C10: when the recursive sub-decode of a composite literal appends
more vectors to the pool than the composite needs (extra trailing nested
`Vector2`/`Vector3` fragments), decoding still succeeds, the value is built
from only the first required vectors in token order, and the extras are
silently ignored. -/
theorem C10_extra_vectors_ignored :
    (∀ (a b c : V2Lit) (rest : List V2Lit) (wa wb : Vector2) (ws : List Vector2)
        (k : String) (d : Dictionary),
      encode_vector2 a.x a.y = .ok wa → encode_vector2 b.x b.y = .ok wb →
      decodeV2s (c :: rest) = .ok ws →
      set_godot_type_to_dictionary
          ("Rect2" :: ((a :: b :: c :: rest).map V2Lit.toks).flatten) k d =
        .ok (dictSet d k (.rect2 (encode_rect2 wa wb)), [], [])) ∧
    (∀ (n1 n2 : V3Lit) (rest : List V3Lit) (wn : Vector3) (ws : List Vector3)
        (dTok : String) (wd : F32) (k : String) (d : Dictionary),
      encode_vector3 n1.x n1.y n1.z = .ok wn → decodeV3s (n2 :: rest) = .ok ws →
      parseTok dTok = .ok wd →
      set_godot_type_to_dictionary
          ("Plane" :: (((n1 :: n2 :: rest).map V3Lit.toks).flatten ++ [dTok])) k d =
        .ok (dictSet d k (.plane ⟨wn, wd⟩), [], [])) ∧
    (∀ (a b c e : V2Lit) (rest : List V2Lit) (wa wb wc : Vector2)
        (ws : List Vector2) (k : String) (d : Dictionary),
      encode_vector2 a.x a.y = .ok wa → encode_vector2 b.x b.y = .ok wb →
      encode_vector2 c.x c.y = .ok wc → decodeV2s (e :: rest) = .ok ws →
      set_godot_type_to_dictionary
          ("Transform2D" :: ((a :: b :: c :: e :: rest).map V2Lit.toks).flatten) k d =
        .ok (dictSet d k (.transform2d (encode_transform2d wa wb wc)), [], [])) ∧
    (∀ (a b c e : V3Lit) (rest : List V3Lit) (wa wb wc : Vector3)
        (ws : List Vector3) (k : String) (d : Dictionary),
      encode_vector3 a.x a.y a.z = .ok wa → encode_vector3 b.x b.y b.z = .ok wb →
      encode_vector3 c.x c.y c.z = .ok wc → decodeV3s (e :: rest) = .ok ws →
      set_godot_type_to_dictionary
          ("Basis" :: ((a :: b :: c :: e :: rest).map V3Lit.toks).flatten) k d =
        .ok (dictSet d k (.basis (encode_basis wa wb wc)), [], [])) ∧
    (∀ (a b c e f : V3Lit) (rest : List V3Lit) (wa wb wc we : Vector3)
        (ws : List Vector3) (k : String) (d : Dictionary),
      encode_vector3 a.x a.y a.z = .ok wa → encode_vector3 b.x b.y b.z = .ok wb →
      encode_vector3 c.x c.y c.z = .ok wc → encode_vector3 e.x e.y e.z = .ok we →
      decodeV3s (f :: rest) = .ok ws →
      set_godot_type_to_dictionary
          ("Transform" :: ((a :: b :: c :: e :: f :: rest).map V3Lit.toks).flatten) k d =
        .ok (dictSet d k (.transform (encode_transform wa wb wc we)), [], [])) := by
  refine ⟨?_, ?_, ?_, ?_, ?_⟩
  · intro a b c rest wa wb ws k d ha hb hrest
    have hdec := decodeV2s_cons_ok ha (decodeV2s_cons_ok hb hrest)
    have hnested := scan_v2s_ok_nil hdec
      (((a :: b :: c :: rest).map V2Lit.toks).flatten) k false d [] []
    rw [set_godot_type_to_dictionary, setGo_rect2, hnested]
    simp only [List.nil_append, readPool, List.get?]
  · intro n1 n2 rest wn ws dTok wd k d hn hrest hd
    have hdec := decodeV3s_cons_ok hn hrest
    have hscan := scan_v3s_ok hdec
      (((n1 :: n2 :: rest).map V3Lit.toks).flatten ++ [dTok]) k false [dTok] d [] []
    rw [set_godot_type_to_dictionary, setGo_plane, hscan,
      setGo_skipAll (by
        intro t ht
        simp only [List.mem_cons, List.not_mem_nil, or_false] at ht
        subst ht
        exact parseTok_not_tag hd) ..]
    have hlast : readTok
        ("Plane" :: (((n1 :: n2 :: rest).map V3Lit.toks).flatten ++ [dTok]))
        (("Plane" :: (((n1 :: n2 :: rest).map V3Lit.toks).flatten ++ [dTok])).length - 1) =
        .ok dTok := by
      rw [← List.cons_append]
      exact readTok_last _ dTok
    simp only [List.nil_append, readPool, List.get?, hlast]
    rw [encode_plane_eq hd]
  · intro a b c e rest wa wb wc ws k d ha hb hc hrest
    have hdec := decodeV2s_cons_ok ha (decodeV2s_cons_ok hb (decodeV2s_cons_ok hc hrest))
    have hnested := scan_v2s_ok_nil hdec
      (((a :: b :: c :: e :: rest).map V2Lit.toks).flatten) k false d [] []
    rw [set_godot_type_to_dictionary, setGo_t2d, hnested]
    simp only [List.nil_append, readPool, List.get?]
  · intro a b c e rest wa wb wc ws k d ha hb hc hrest
    have hdec := decodeV3s_cons_ok ha (decodeV3s_cons_ok hb (decodeV3s_cons_ok hc hrest))
    have hnested := scan_v3s_ok_nil hdec
      (((a :: b :: c :: e :: rest).map V3Lit.toks).flatten) k false d [] []
    rw [set_godot_type_to_dictionary, setGo_basis, hnested]
    simp only [List.nil_append, readPool, List.get?]
  · intro a b c e f rest wa wb wc we ws k d ha hb hc he hrest
    have hdec := decodeV3s_cons_ok ha
      (decodeV3s_cons_ok hb (decodeV3s_cons_ok hc (decodeV3s_cons_ok he hrest)))
    have hnested := scan_v3s_ok_nil hdec
      (((a :: b :: c :: e :: f :: rest).map V3Lit.toks).flatten) k false d [] []
    rw [set_godot_type_to_dictionary, setGo_trans, hnested]
    simp only [List.nil_append, readPool, List.get?]

/-- Witness for C10 at concrete token lists with one extra nested vector
for each composite type. -/
theorem C10_witness :
    encode_vector2 "1" "2" = .ok ⟨.finite 1, .finite 2⟩ ∧
      decodeV2s [⟨"5", "6"⟩] = .ok [⟨.finite 5, .finite 6⟩] ∧
      set_godot_type_to_dictionary
          ("Rect2" :: (([⟨"1", "2"⟩, ⟨"3", "4"⟩, ⟨"5", "6"⟩] :
            List V2Lit).map V2Lit.toks).flatten) "k" [] =
        .ok (dictSet [] "k" (.rect2 (encode_rect2 ⟨.finite 1, .finite 2⟩
          ⟨.finite 3, .finite 4⟩)), [], []) ∧
      set_godot_type_to_dictionary
          ("Plane" :: ((([⟨"1", "2", "3"⟩, ⟨"4", "5", "6"⟩] :
            List V3Lit).map V3Lit.toks).flatten ++ ["7"])) "k" [] =
        .ok (dictSet [] "k" (.plane ⟨⟨.finite 1, .finite 2, .finite 3⟩,
          .finite 7⟩), [], []) ∧
      set_godot_type_to_dictionary
          ("Transform2D" :: (([⟨"1", "2"⟩, ⟨"3", "4"⟩, ⟨"5", "6"⟩, ⟨"7", "8"⟩] :
            List V2Lit).map V2Lit.toks).flatten) "k" [] =
        .ok (dictSet [] "k" (.transform2d (encode_transform2d
          ⟨.finite 1, .finite 2⟩ ⟨.finite 3, .finite 4⟩
          ⟨.finite 5, .finite 6⟩)), [], []) ∧
      set_godot_type_to_dictionary
          ("Basis" :: (([⟨"1", "2", "3"⟩, ⟨"4", "5", "6"⟩, ⟨"7", "8", "9"⟩,
            ⟨"10", "11", "12"⟩] : List V3Lit).map V3Lit.toks).flatten) "k" [] =
        .ok (dictSet [] "k" (.basis (encode_basis
          ⟨.finite 1, .finite 2, .finite 3⟩ ⟨.finite 4, .finite 5, .finite 6⟩
          ⟨.finite 7, .finite 8, .finite 9⟩)), [], []) ∧
      set_godot_type_to_dictionary
          ("Transform" :: (([⟨"1", "2", "3"⟩, ⟨"4", "5", "6"⟩, ⟨"7", "8", "9"⟩,
            ⟨"10", "11", "12"⟩, ⟨"13", "14", "15"⟩] : List V3Lit).map V3Lit.toks).flatten)
          "k" [] =
        .ok (dictSet [] "k" (.transform (encode_transform
          ⟨.finite 1, .finite 2, .finite 3⟩ ⟨.finite 4, .finite 5, .finite 6⟩
          ⟨.finite 7, .finite 8, .finite 9⟩
          ⟨.finite 10, .finite 11, .finite 12⟩)), [], []) :=
  ⟨rfl, rfl,
    C10_extra_vectors_ignored.1 ⟨"1", "2"⟩ ⟨"3", "4"⟩ ⟨"5", "6"⟩ [] _ _ _ "k" []
      rfl rfl rfl,
    C10_extra_vectors_ignored.2.1 ⟨"1", "2", "3"⟩ ⟨"4", "5", "6"⟩ [] _ _ "7" _ "k" []
      rfl rfl rfl,
    C10_extra_vectors_ignored.2.2.1 ⟨"1", "2"⟩ ⟨"3", "4"⟩ ⟨"5", "6"⟩ ⟨"7", "8"⟩ []
      _ _ _ _ "k" [] rfl rfl rfl rfl,
    C10_extra_vectors_ignored.2.2.2.1 ⟨"1", "2", "3"⟩ ⟨"4", "5", "6"⟩ ⟨"7", "8", "9"⟩
      ⟨"10", "11", "12"⟩ [] _ _ _ _ "k" [] rfl rfl rfl rfl,
    C10_extra_vectors_ignored.2.2.2.2 ⟨"1", "2", "3"⟩ ⟨"4", "5", "6"⟩ ⟨"7", "8", "9"⟩
      ⟨"10", "11", "12"⟩ ⟨"13", "14", "15"⟩ [] _ _ _ _ _ "k" [] rfl rfl rfl rfl rfl⟩


/-- Claim C1 counterexample: the tokenizer's regex character class
`[a-zA-Z0-9.]` contains no `-`, so in `Vector2(-1, 2)` the minus sign is
dropped and the decoded x field is `1`, not the parsed argument value `-1`
of the grammar number `-1`. -/
theorem C1_counterexample :
    grammarNumber? "-1" = some (-1) ∧ grammarNumber? "2" = some 2 ∧
      tokenize "Vector2(-1, 2)" = ["Vector2", "1", "2"] ∧
      encode_godot_types [] "k" "Vector2(-1, 2)" =
        .ok [("k", GVariant.vector2 ⟨.finite 1, .finite 2⟩)] ∧
      F32.finite 1 ≠ F32.finite (-1) := by
  exact ⟨by decide, by decide, rfl, rfl, by decide⟩

/-- Claim C1 (amended: the numeric arguments carry no leading minus, since
the tokenizer drops a `-`): decoding a valid `Vector2(x, y)` or
`Vector3(x, y, z)` literal with unsigned grammar-number arguments yields a
vector value whose fields are exactly the parsed argument values, in
positional order. -/
theorem C1_vector_literal_roundtrip :
    (∀ (d : Dictionary) (k x y : String) (qx qy : ℚ),
      unsignedNumber? x.data = some qx → unsignedNumber? y.data = some qy →
      encode_godot_types d k ("Vector2(" ++ x ++ ", " ++ y ++ ")") =
        .ok (dictSet d k (.vector2 ⟨.finite qx, .finite qy⟩))) ∧
    (∀ (d : Dictionary) (k x y z : String) (qx qy qz : ℚ),
      unsignedNumber? x.data = some qx → unsignedNumber? y.data = some qy →
      unsignedNumber? z.data = some qz →
      encode_godot_types d k ("Vector3(" ++ x ++ ", " ++ y ++ ", " ++ z ++ ")") =
        .ok (dictSet d k (.vector3 ⟨.finite qx, .finite qy, .finite qz⟩))) := by
  constructor
  · intro d k x y qx qy hx hy
    have henc := encode_vector2_eq (parseTok_of_unsigned hx) (parseTok_of_unsigned hy)
    have hset : set_godot_type_to_dictionary ["Vector2", x, y] k d =
        .ok (dictSet d k (.vector2 ⟨.finite qx, .finite qy⟩), [], []) := by
      rw [set_godot_type_to_dictionary, setGo_v2, henc]
      rfl
    exact encode_known_tag_ok (tok_v2_template hx hy) (by decide) hset
  · intro d k x y z qx qy qz hx hy hz
    have henc := encode_vector3_eq (parseTok_of_unsigned hx) (parseTok_of_unsigned hy)
      (parseTok_of_unsigned hz)
    have hset : set_godot_type_to_dictionary ["Vector3", x, y, z] k d =
        .ok (dictSet d k (.vector3 ⟨.finite qx, .finite qy, .finite qz⟩), [], []) := by
      rw [set_godot_type_to_dictionary, setGo_v3, henc]
      rfl
    exact encode_known_tag_ok (tok_v3_template hx hy hz) (by decide) hset

/-- Witness for the amended C1 at concrete literals. -/
theorem C1_witness :
    unsignedNumber? "1".data = some 1 ∧ unsignedNumber? "2".data = some 2 ∧
      unsignedNumber? "3".data = some 3 ∧
      encode_godot_types [] "k" "Vector2(1, 2)" =
        .ok (dictSet [] "k" (.vector2 ⟨.finite 1, .finite 2⟩)) ∧
      encode_godot_types [] "k" "Vector3(1, 2, 3)" =
        .ok (dictSet [] "k" (.vector3 ⟨.finite 1, .finite 2, .finite 3⟩)) :=
  ⟨by decide, by decide, by decide,
    C1_vector_literal_roundtrip.1 [] "k" "1" "2" 1 2 (by decide) (by decide),
    C1_vector_literal_roundtrip.2 [] "k" "1" "2" "3" 1 2 3 (by decide) (by decide)
      (by decide)⟩


/-- Claim C9: for a document root table containing, at any nesting depth,
only nested tables and non-string scalar leaves (with the pairwise-distinct
keys a TOML parser guarantees, duplicate keys being a parse error), the tree
builder produces exactly the mirror mapping: the same keys at every level in
order, nested tables as nested mappings, scalar leaves copied, and datetimes
rendered as their canonical strings. -/
theorem C9_plain_table_mirror (es : List (String × TomlValue))
    (hplain : plainEntries es = true) (hkeys : (es.map Prod.fst).Nodup)
    (hnodup : nodupEntries es) :
    populate_toml_dictionary [] es = .ok (mirrorEntries es) := by
  have h := popAux (sizeOf es + 1) es [] (by omega) hplain hnodup hkeys
    (by intro u hu; rfl)
  simpa using h

/-- Witness for C9 at a two-level document with integer, float, boolean and
datetime leaves. -/
theorem C9_witness :
    plainEntries [("a", .int 1),
      ("b", .table [("c", .bool true), ("d", .datetime "1979-05-27T07:32:00Z")]),
      ("e", .float 3)] = true ∧
    mirrorEntries [("a", .int 1),
      ("b", .table [("c", .bool true), ("d", .datetime "1979-05-27T07:32:00Z")]),
      ("e", .float 3)] =
      [("a", .int 1),
        ("b", .dict [("c", .bool true), ("d", .str "1979-05-27T07:32:00Z")]),
        ("e", .float 3)] ∧
    populate_toml_dictionary [] [("a", .int 1),
      ("b", .table [("c", .bool true), ("d", .datetime "1979-05-27T07:32:00Z")]),
      ("e", .float 3)] =
      .ok (mirrorEntries [("a", .int 1),
        ("b", .table [("c", .bool true), ("d", .datetime "1979-05-27T07:32:00Z")]),
        ("e", .float 3)]) := by
  refine ⟨by simp [plainEntries, plainDoc], by simp [mirrorEntries, mirrorVal], ?_⟩
  exact C9_plain_table_mirror _ (by simp [plainEntries, plainDoc]) (by decide)
    (by simp [nodupEntries, nodupDoc])

/-- Claim C3 (code bug in the source): `parse_toml` does not propagate a
failed file open as an `IoError`; it only logs it and proceeds with the
empty text an unopened file yields, so (the empty string being a valid TOML
document with an empty root table) the operation returns an empty
dictionary instead of failing. -/
theorem C3_io_error_not_propagated (fromStr : String → Except DErr TomlValue)
    (e : IoErr) (hempty : fromStr "" = .ok (.table [])) :
    parse_toml fromStr (.error e) = .ok [] := by
  rw [parse_toml]
  simp only [hempty]
  rw [populate_toml_dictionary]

/-- Witness for C3 at a concrete TOML parser stub and open error. -/
theorem C3_witness :
    parse_toml (fun _ => .ok (.table [])) (.error .cannotOpen) = .ok [] :=
  C3_io_error_not_propagated (fun _ => .ok (.table [])) .cannotOpen rfl

/-- Claim C4 (code bug in the source): on a string value containing `(`
whose token list is empty, `encode_godot_types` indexes `type_results[0]`
out of bounds (a panic) instead of storing the original string unchanged. -/
theorem C4_empty_token_list_panics :
    tokenize "(" = [] ∧
      populateValue [] "k" (.str "(") = .error .indexError ∧
      populateValue [] "k" (.str "(") ≠ .ok (dictSet [] "k" (.str "(")) := by
  have h2 : populateValue [] "k" (.str "(") = .error .indexError := by
    rw [populateValue_str, if_pos (by decide)]
    rfl
  refine ⟨rfl, h2, ?_⟩
  rw [h2]
  simp

/-- Claim C5: a string value with no parenthesis is stored unchanged under
its key, without structured-type decoding. -/
theorem C5_no_paren_identity (d : Dictionary) (k : String) {s : String}
    (h : s.data.contains '(' = false) :
    populateValue d k (.str s) = .ok (dictSet d k (.str s)) := by
  rw [populateValue_str, if_neg (fun hc => Bool.false_ne_true (h ▸ hc))]

/-- Witness for C5 at a concrete plain string. -/
theorem C5_witness :
    ("hello".data.contains '(') = false ∧
      populateValue [] "k" (.str "hello") = .ok (dictSet [] "k" (.str "hello")) :=
  ⟨by decide, C5_no_paren_identity [] "k" (by decide)⟩

/-- Claim C7: a string value containing `(` whose first token is not one of
the eight known tags is stored unchanged under its key, with no error. -/
theorem C7_unknown_tag_identity (d : Dictionary) (k : String) {v t0 : String}
    {ts : List String} (hparen : v.data.contains '(' = true)
    (htok : tokenize v = t0 :: ts) (hno : t0 ∉ godot_types) :
    populateValue d k (.str v) = .ok (dictSet d k (.str v)) := by
  rw [populateValue_str, if_pos hparen]
  exact encode_unknown_tag htok hno d k

/-- Witness for C7 at the literal from the spec's example. -/
theorem C7_witness :
    ("Foo(1,2)".data.contains '(') = true ∧
      tokenize "Foo(1,2)" = ["Foo", "1", "2"] ∧
      "Foo" ∉ godot_types ∧
      populateValue [] "k" (.str "Foo(1,2)") = .ok (dictSet [] "k" (.str "Foo(1,2)")) :=
  ⟨by decide, rfl, by decide,
    C7_unknown_tag_identity [] "k" (by decide) rfl (by decide)⟩

end GodotToml
